import Mathlib

/-!
Verification of the lamarik Lama bytecode toolchain (decoder, verifier,
stack-VM interpreter) against its natural-language specification.

The Rust sources are shallowly embedded: machine integers (i64, i32, usize)
are modelled as Int or Nat with explicit wrapping where overflow matters,
mutable interpreter state is threaded explicitly, and fallible operations
return Except or Option.  Rust panics are modelled as distinguished
outcomes.  Definitions follow the source files named in their doc comments.
-/

namespace Lamarik

/-- Machine word model: the value set of Rust i64 is the integers in
the interval from -2^63 to 2^63 - 1; wrap64 reduces an integer into that
interval exactly as two's-complement wrapping does. -/
def wrap64 (x : Int) : Int := (x + 2 ^ 63) % 2 ^ 64 - 2 ^ 63

/-- Model of the constant CONS_TAG_HASH in src/src/lib.rs (decimal 1697575,
which is 0x19E727). -/
def CONS_TAG_HASH : Int := 1697575

/-- Model of the constant NIL_TAG_HASH in src/src/lib.rs (decimal 115865,
which is 0x1C499). -/
def NIL_TAG_HASH : Int := 115865

/-- Model of rtBox in src/src/lib.rs: (x << 1) | 1 on i64.  The shifted
word wrap64 (2 * x) is even, so or-ing the low bit in is addition of 1. -/
def rtBox (x : Int) : Int := wrap64 (2 * x) + 1

/-- Model of rtUnbox in src/src/lib.rs: arithmetic shift right by one on a
two's-complement word, which is floor division by 2; since the divisor is
positive this coincides with Euclidean division, Lean's Int division. -/
def rtUnbox (x : Int) : Int := x / 2

/-- Model of isUnboxed in src/src/lib.rs: (x & 1) == 1; the low bit of a
two's-complement word is its nonnegative remainder modulo 2. -/
def isUnboxed (x : Int) : Bool := x % 2 == 1

/-- Model of the tag-hash selection in new_sexp (src/src/lib.rs): the
literal tags cons and nil get the baked-in constants, every other tag is
hashed by the external runtime function LtagHash, which is passed here as
a parameter since it lives outside the repository. -/
def sexpTagHash (ltagHash : String → Int) (tag : String) : Int :=
  if tag = "cons" then CONS_TAG_HASH
  else if tag = "nil" then NIL_TAG_HASH
  else ltagHash tag

end Lamarik

/-- Conversion v as usize of a 64-bit signed value on a 64-bit machine:
two's-complement reinterpretation, i.e. the nonnegative remainder mod 2^64
(i32 sources are sign-extended to 64 bits first, which is the identity on
the Int model). -/
def usizeOfInt (x : Int) : Nat := (x % (2 : Int) ^ 64).toNat

/-- Conversion v as u32 of a signed value: nonnegative remainder mod 2^32. -/
def u32OfInt (x : Int) : Nat := (x % (2 : Int) ^ 32).toNat

/-- Little-endian decoding of four bytes into an i32 value. -/
def i32OfLe (b0 b1 b2 b3 : Nat) : Int :=
  let u : Nat := b0 + 256 * b1 + 65536 * b2 + 16777216 * b3
  if u < 2 ^ 31 then (u : Int) else (u : Int) - 2 ^ 32

namespace Lama

/-- Binary operators of the BINOP instruction (bytecode.rs, enum Op),
shared verbatim between the crate revisions in the repository. -/
inductive Op where
  | ADD | SUB | MUL | DIV | MOD | LT | LEQ | GT | GEQ | EQ | NEQ | AND | OR
deriving DecidableEq, Repr

/-- Scoping rule for a value (bytecode.rs, enum ValueRel). -/
inductive ValueRel where
  | Global | Local | Arg | Capture
deriving DecidableEq, Repr

/-- Kinds of conditional jump (bytecode.rs, enum CompareJumpKind). -/
inductive CompareJumpKind where
  | ISZERO | ISNONZERO
deriving DecidableEq, Repr

/-- Builtin functions (bytecode.rs, enum Builtin). -/
inductive Builtin where
  | Lread | Lwrite | Llength | Lstring | Barray
deriving DecidableEq, Repr

/-- Pattern matching kinds (bytecode.rs, enum PattKind). -/
inductive PattKind where
  | BothAreStr | IsStr | IsArray | IsSExp | IsRef | IsVal | IsLambda
deriving DecidableEq, Repr

/-- Model of the TryFrom u8 conversion for Op (bytecode.rs). -/
def Op.tryFromByte (subopcode : Nat) : Option Op :=
  match subopcode with
  | 0x1 => some .ADD
  | 0x2 => some .SUB
  | 0x3 => some .MUL
  | 0x4 => some .DIV
  | 0x5 => some .MOD
  | 0x6 => some .LT
  | 0x7 => some .LEQ
  | 0x8 => some .GT
  | 0x9 => some .GEQ
  | 0xa => some .EQ
  | 0xb => some .NEQ
  | 0xc => some .AND
  | 0xd => some .OR
  | _ => none

/-- Model of the TryFrom u8 conversion for ValueRel (bytecode.rs). -/
def ValueRel.tryFromByte (subopcode : Nat) : Option ValueRel :=
  match subopcode with
  | 0x0 => some .Global
  | 0x1 => some .Local
  | 0x2 => some .Arg
  | 0x3 => some .Capture
  | _ => none

/-- Model of the TryFrom u8 conversion for PattKind (bytecode.rs). -/
def PattKind.tryFromByte (subopcode : Nat) : Option PattKind :=
  match subopcode with
  | 0x0 => some .BothAreStr
  | 0x1 => some .IsStr
  | 0x2 => some .IsArray
  | 0x3 => some .IsSExp
  | 0x4 => some .IsRef
  | 0x5 => some .IsVal
  | 0x6 => some .IsLambda
  | _ => none

/-- Model of the TryFrom u8 conversion for Builtin (bytecode.rs). -/
def Builtin.tryFromByte (subopcode : Nat) : Option Builtin :=
  match subopcode with
  | 0x0 => some .Lread
  | 0x1 => some .Lwrite
  | 0x2 => some .Llength
  | 0x3 => some .Lstring
  | 0x4 => some .Barray
  | _ => none

end Lama

namespace Lamarik

open Lama

/-- Model of Object in src/src/object.rs: an element of the interpreter
operand stack, either a boxed word (tagged small integer or pointer) or an
unboxed raw i64. -/
inductive Object where
  | Boxed (v : Int)
  | Unboxed (v : Int)
deriving DecidableEq, Repr

/-- Model of Object::new_boxed (src/src/object.rs). -/
def Object.new_boxed (value : Int) : Object := .Boxed (rtBox value)

/-- Model of Object::new_unboxed (src/src/object.rs). -/
def Object.new_unboxed (value : Int) : Object := .Unboxed value

/-- Model of Object::new_empty (src/src/object.rs). -/
def Object.new_empty : Object := .Unboxed 0

/-- Model of Object::unwrap (src/src/object.rs): boxed words are unboxed,
unboxed words are returned as stored. -/
def Object.unwrap : Object → Int
  | .Boxed v => rtUnbox v
  | .Unboxed v => v

/-- Model of the error enum InterpreterError in src/src/interpreter.rs
(payloads of external types are kept as the data the code stores). -/
inductive InterpreterError where
  | StackUnderflow
  | EndOfCodeSection
  | ReadingMoreThenCodeSection
  | InvalidOpcode (b : Nat)
  | InvalidType (s : String)
  | OutOfBoundsAccess (index len : Nat)
  | InvalidByteSequence (ip : Nat)
  | StringIndexOutOfBounds
  | InvalidStringPointer
  | InvalidUtf8String
  | InvalidCString
  | InvalidObjectPointer
  | InvalidJumpOffset (ip : Nat) (off : Int) (len : Nat)
  | NotEnoughArguments (instr : String)
  | InvalidStoreIndex (rel : ValueRel) (index : Int) (n : Int)
  | InvalidLoadIndex (rel : ValueRel) (index : Int) (n : Int)
  | InvalidLengthForArray
deriving DecidableEq, Repr

/-- Mutable interpreter state (the fields of struct Interpreter in
src/src/interpreter.rs that the modelled instructions touch).  The operand
stack is a list with index 0 at the bottom; Vec::push appends at the end. -/
structure IState where
  operand_stack : List Object
  frame_pointer : Nat
  ip : Nat
deriving DecidableEq, Repr

/-- Model of Interpreter::gc_sync (src/src/interpreter.rs): republishing
the stack bounds to the collector fails with StackUnderflow when the
operand stack is empty; the FFI publication itself has no effect on the
interpreter state. -/
def gc_sync (s : IState) : Except InterpreterError Unit :=
  if s.operand_stack.isEmpty then .error .StackUnderflow else .ok ()

/-- Model of Interpreter::push (src/src/interpreter.rs): push, then
republish bounds (which cannot fail after a push). -/
def push (s : IState) (obj : Object) : Except InterpreterError Unit × IState :=
  let s1 : IState := { s with operand_stack := s.operand_stack ++ [obj] }
  match gc_sync s1 with
  | .error e => (.error e, s1)
  | .ok _ => (.ok (), s1)

/-- Model of Interpreter::pop (src/src/interpreter.rs).  Note the faithful
non-atomicity: Vec::pop removes the element first, and the trailing
gc_sync republish fails with StackUnderflow when the stack became empty,
so popping a one-element stack mutates the stack and still errors. -/
def pop (s : IState) : Except InterpreterError Object × IState :=
  let obj : Except InterpreterError Object :=
    match s.operand_stack.getLast? with
    | some x => .ok x
    | none => .error .StackUnderflow
  let s1 : IState := { s with operand_stack := s.operand_stack.dropLast }
  match gc_sync s1 with
  | .error e => (.error e, s1)
  | .ok _ => (obj, s1)

/-- Iterated pop discarding the values, as in the for loops of the END arm
of Interpreter::eval; stops at the first error like the question-mark
operator does. -/
def popDiscard : Nat → IState → Except InterpreterError Unit × IState
  | 0, s => (.ok (), s)
  | n + 1, s =>
    match pop s with
    | (.error e, s1) => (.error e, s1)
    | (.ok _, s1) => popDiscard n s1

/-- Iterated pop collecting the values in pop order (first-popped first),
as the argument-collection loop of the BEGIN arm of Interpreter::eval does
with Vec::push. -/
def popCollect : Nat → IState → Except InterpreterError (List Object) × IState
  | 0, s => (.ok [], s)
  | n + 1, s =>
    match pop s with
    | (.error e, s1) => (.error e, s1)
    | (.ok x, s1) =>
      match popCollect n s1 with
      | (.error e, s2) => (.error e, s2)
      | (.ok xs, s2) => (.ok (x :: xs), s2)

/-- Iterated push, as in the re-push loops of the BEGIN arm of
Interpreter::eval. -/
def pushMany : List Object → IState → Except InterpreterError Unit × IState
  | [], s => (.ok (), s)
  | x :: xs, s =>
    match push s x with
    | (.error e, s1) => (.error e, s1)
    | (.ok _, s1) => pushMany xs s1

/-- Model of struct FrameMetadata in src/src/frame.rs. -/
structure FrameMetadata where
  n_locals : Int
  n_args : Int
  ret_frame_pointer : Nat
  ret_ip : Nat
deriving DecidableEq, Repr

/-- Model of FrameMetadata::get_from_stack (src/src/frame.rs): reads the
four metadata slots above the frame pointer; usize casts of the unwrapped
i64 values follow two's-complement reinterpretation. -/
def FrameMetadata.get_from_stack (stack : List Object) (frame_pointer : Nat) :
    Option FrameMetadata := do
  let n_args := (← stack.get? (frame_pointer + 1)).unwrap
  let n_locals := (← stack.get? (frame_pointer + 2)).unwrap
  let ret_frame_pointer := usizeOfInt (← stack.get? (frame_pointer + 3)).unwrap
  let ret_ip := usizeOfInt (← stack.get? (frame_pointer + 4)).unwrap
  pure ⟨n_locals, n_args, ret_frame_pointer, ret_ip⟩

/-- Model of FrameMetadata::set_arg_at (src/src/frame.rs): writes the
value at absolute slot frame_pointer + 5 + index unless the slot is out of
the stack or index exceeds n_args (note the check is index > n_args, a
strict inequality). -/
def FrameMetadata.set_arg_at (fm : FrameMetadata) (stack : List Object)
    (frame_pointer index : Nat) (value : Object) : Except String (List Object) :=
  let arg_index := frame_pointer + 5 + index
  if arg_index ≥ stack.length ∨ index > usizeOfInt fm.n_args then
    .error ("Index out of bounds")
  else
    .ok (stack.set arg_index value)

/-- Model of FrameMetadata::set_local_at (src/src/frame.rs): writes at
absolute slot frame_pointer + 5 + n_args + index unless the slot is out of
the stack or index exceeds n_locals (again a strict inequality). -/
def FrameMetadata.set_local_at (fm : FrameMetadata) (stack : List Object)
    (frame_pointer index : Nat) (value : Object) : Except String (List Object) :=
  let local_index := frame_pointer + 5 + usizeOfInt fm.n_args + index
  if local_index ≥ stack.length ∨ index > usizeOfInt fm.n_locals then
    .error ("Index out of bounds")
  else
    .ok (stack.set local_index value)

/-- Model of enum Instruction in src/src/bytecode.rs; in this revision the
CLOSURE variant carries the captured-variable descriptions as a vector of
i32 words. -/
inductive Instruction where
  | NOP
  | END
  | RET
  | BINOP (op : Op)
  | CONST (value : Int)
  | STRING (index : Int)
  | BEGIN (args locals : Int)
  | CBEGIN (args locals : Int)
  | CLOSURE (offset arity : Int) (captured : List Int)
  | STORE (rel : ValueRel) (index : Int)
  | LOAD (rel : ValueRel) (index : Int)
  | LOADREF (rel : ValueRel) (index : Int)
  | CALL (offset : Option Int) (n : Option Int) (name : Option Builtin) (builtin : Bool)
  | CALLC (arity : Int)
  | FAIL (line column : Int)
  | LINE (n : Int)
  | DROP
  | DUP
  | SWAP
  | JMP (offset : Int)
  | CJMP (offset : Int) (kind : CompareJumpKind)
  | ELEM
  | STI
  | STA
  | SEXP (s_index n_members : Int)
  | TAG (index n : Int)
  | PATT (kind : PattKind)
  | ARRAY (n : Int)
  | HALT
deriving DecidableEq, Repr

/-- The arithmetic of the BINOP arm of Interpreter::eval
(src/src/interpreter.rs) on the unwrapped i64 operands.  ADD, SUB, MUL
wrap as release-mode Rust arithmetic does; the DIV and MOD cases that
panic in Rust (zero divisor, or i64 minimum divided by minus one) are
excluded before this function is consulted.  Comparisons yield 0 or 1,
AND and OR test both operands for being non-zero. -/
def binopResult (op : Op) (left right : Int) : Int :=
  match op with
  | .ADD => wrap64 (left + right)
  | .SUB => wrap64 (left - right)
  | .MUL => wrap64 (left * right)
  | .DIV => wrap64 (Int.tdiv left right)
  | .MOD => wrap64 (Int.tmod left right)
  | .EQ => if left = right then 1 else 0
  | .NEQ => if left ≠ right then 1 else 0
  | .LT => if left < right then 1 else 0
  | .LEQ => if left ≤ right then 1 else 0
  | .GT => if left > right then 1 else 0
  | .GEQ => if left ≥ right then 1 else 0
  | .AND => if left ≠ 0 ∧ right ≠ 0 then 1 else 0
  | .OR => if left ≠ 0 ∨ right ≠ 0 then 1 else 0

/-- Condition under which the Rust i64 division or remainder in the BINOP
arm panics: a zero divisor, or the minimum value divided by minus one. -/
def divPanics (op : Op) (left right : Int) : Prop :=
  (op = .DIV ∨ op = .MOD) ∧ (right = 0 ∨ (left = -2 ^ 63 ∧ right = -1))

instance (op : Op) (l r : Int) : Decidable (divPanics op l r) := by
  unfold divPanics; infer_instance

/-- Outcome of evaluating one instruction: normal return, an Err return
(the state keeps the mutations made before the error, mirroring the
question-mark operator on a method taking mutable self), or a Rust
panic. -/
inductive StepResult where
  | ok (s : IState)
  | fail (e : InterpreterError) (s : IState)
  | panicked (s : IState)
deriving DecidableEq, Repr

/-- Model of the BEGIN arm of Interpreter::eval (src/src/interpreter.rs):
pop the saved ip pushed by CALL, collect the arguments, set the frame
pointer to the top of the remaining stack, push argument and local
counts, the saved frame pointer and ip, re-push the arguments in original
order, and initialise the locals to boxed zero. -/
def evalBegin (args locals : Int) (s : IState) : StepResult :=
  match pop s with
  | (.error _, s1) => .fail (.NotEnoughArguments ("BEGIN")) s1
  | (.ok ret_ip, s1) =>
    match popCollect args.toNat s1 with
    | (.error _, s2) => .fail (.NotEnoughArguments ("BEGIN")) s2
    | (.ok arguments, s2) =>
      let ret_frame_pointer := s2.frame_pointer
      if s2.operand_stack.isEmpty then .fail (.NotEnoughArguments ("BEGIN")) s2
      else
        let s3 : IState := { s2 with frame_pointer := s2.operand_stack.length - 1 }
        match pushMany ([Object.new_unboxed args, Object.new_unboxed locals,
            Object.new_unboxed (ret_frame_pointer : Int), ret_ip] ++
            arguments.reverse ++
            List.replicate locals.toNat (Object.new_boxed 0)) s3 with
        | (.error e, s4) => .fail e s4
        | (.ok _, s4) => .ok s4

/-- Model of the END and RET arm of Interpreter::eval
(src/src/interpreter.rs): pop the return value, read the frame metadata at
the frame pointer, restore the caller frame pointer and ip, pop the four
metadata words and the argument and local slots, and re-push the return
value. -/
def evalEndRet (s : IState) : StepResult :=
  match pop s with
  | (.error _, s1) => .fail (.NotEnoughArguments ("END")) s1
  | (.ok return_value, s1) =>
    match FrameMetadata.get_from_stack s1.operand_stack s1.frame_pointer with
    | none => .fail (.NotEnoughArguments ("END")) s1
    | some fm =>
      let s2 : IState := { s1 with frame_pointer := fm.ret_frame_pointer, ip := fm.ret_ip }
      match popDiscard 4 s2 with
      | (.error e, s3) => .fail e s3
      | (.ok _, s3) =>
        match popDiscard fm.n_args.toNat s3 with
        | (.error e, s4) => .fail e s4
        | (.ok _, s4) =>
          match popDiscard fm.n_locals.toNat s4 with
          | (.error e, s5) => .fail e s5
          | (.ok _, s5) =>
            match push s5 return_value with
            | (.error e, s6) => .fail e s6
            | (.ok _, s6) => .ok s6

/-- Model of Interpreter::eval (src/src/interpreter.rs) restricted to the
instruction arms whose semantics do not go through the external heap
runtime; arms that allocate or inspect heap objects, the builtin
dispatch, and arms that consult the parsed byte file (such as the JMP
bounds check) are left unmodelled (result none).  The STI arm and a
builtin CALL without a name panic in the source. -/
def eval (instr : Instruction) (s : IState) : Option StepResult :=
  match instr with
  | .NOP => some (.ok s)
  | .BINOP op =>
    match pop s with
    | (.error e, s1) => some (.fail e s1)
    | (.ok robj, s1) =>
      match pop s1 with
      | (.error e, s2) => some (.fail e s2)
      | (.ok lobj, s2) =>
        let right := robj.unwrap
        let left := lobj.unwrap
        if divPanics op left right then some (.panicked s2)
        else
          match push s2 (Object.new_boxed (binopResult op left right)) with
          | (.error e, s3) => some (.fail e s3)
          | (.ok _, s3) => some (.ok s3)
  | .CONST value => -- push the boxed constant
    match push s (Object.new_boxed value) with
    | (.error e, s1) => some (.fail e s1)
    | (.ok _, s1) => some (.ok s1)
  | .STI => some (.panicked s)
  | .BEGIN args locals => some (evalBegin args locals s)
  | .CBEGIN _ _ => none
  | .END => some (evalEndRet s)
  | .RET => some (evalEndRet s)
  | .DROP =>
    match pop s with
    | (.error e, s1) => some (.fail e s1)
    | (.ok _, s1) => some (.ok s1)
  | .DUP =>
    match pop s with
    | (.error e, s1) => some (.fail e s1)
    | (.ok value, s1) =>
      match push s1 value with
      | (.error e, s2) => some (.fail e s2)
      | (.ok _, s2) =>
        match push s2 value with
        | (.error e, s3) => some (.fail e s3)
        | (.ok _, s3) => some (.ok s3)
  | .SWAP =>
    match pop s with
    | (.error e, s1) => some (.fail e s1)
    | (.ok value1, s1) =>
      match pop s1 with
      | (.error e, s2) => some (.fail e s2)
      | (.ok value2, s2) =>
        match push s2 value1 with
        | (.error e, s3) => some (.fail e s3)
        | (.ok _, s3) =>
          match push s3 value2 with
          | (.error e, s4) => some (.fail e s4)
          | (.ok _, s4) => some (.ok s4)
  | .LINE _ => some (.ok s)
  | .CALL offset _ _ builtin =>
    if builtin then none
    else
      match push s (Object.new_unboxed (s.ip : Int)) with
      | (.error e, s1) => some (.fail e s1)
      | (.ok _, s1) =>
        match offset with
        | some off => some (.ok { s1 with ip := usizeOfInt off })
        | none => some (.panicked s1)
  | _ => none

/-- Model of Interpreter::next for u8 (src/src/interpreter.rs): read one
byte from the code section at ip, advancing ip; the second bounds check
and the slice lookup of the source cannot fail once the first check
passed. -/
def nextU8 (code : List Nat) (ip : Nat) : Except InterpreterError (Nat × Nat) :=
  if ip + 1 > code.length then .error .ReadingMoreThenCodeSection
  else .ok (code.getD ip 0, ip + 1)

/-- Model of Interpreter::next for i32 (src/src/interpreter.rs): read four
bytes little-endian from the code section at ip, advancing ip. -/
def nextI32 (code : List Nat) (ip : Nat) : Except InterpreterError (Int × Nat) :=
  if ip + 4 > code.length then .error .ReadingMoreThenCodeSection
  else
    .ok (i32OfLe (code.getD ip 0) (code.getD (ip + 1) 0)
      (code.getD (ip + 2) 0) (code.getD (ip + 3) 0), ip + 4)

/-- The captured-variable loop of the CLOSURE arm of Interpreter::decode
(src/src/interpreter.rs): reads arity i32 words, four bytes each — no
relation byte is read and nothing is validated. -/
def readCaptured (code : List Nat) : Nat → Nat →
    Except InterpreterError (List Int × Nat)
  | 0, ip => .ok ([], ip)
  | n + 1, ip => do
    let (v, ip1) ← nextI32 code ip
    let (vs, ip2) ← readCaptured code n ip1
    .ok (v :: vs, ip2)

/-- Model of Interpreter::decode (src/src/interpreter.rs): byte already
fetched, ip points just past it; returns the instruction and the ip after
its immediates. -/
def decode (code : List Nat) (byte : Nat) (ip : Nat) :
    Except InterpreterError (Instruction × Nat) :=
  if byte = 0xff then .ok (.HALT, ip)
  else
    let opcode := byte &&& 0xF0
    let subopcode := byte &&& 0x0F
    if opcode = 0x00 then
      if subopcode = 0x0 then .ok (.NOP, ip)
      else if 0x1 ≤ subopcode ∧ subopcode ≤ 0xd then
        match Op.tryFromByte subopcode with
        | some op => .ok (.BINOP op, ip)
        | none => .error (.InvalidOpcode byte)
      else .error (.InvalidOpcode byte)
    else if opcode = 0x10 then
      match subopcode with
      | 0x0 => do let (v, ip1) ← nextI32 code ip; .ok (.CONST v, ip1)
      | 0x1 => do let (v, ip1) ← nextI32 code ip; .ok (.STRING v, ip1)
      | 0x2 => do
        let (si, ip1) ← nextI32 code ip
        let (nm, ip2) ← nextI32 code ip1
        .ok (.SEXP si nm, ip2)
      | 0x3 => .ok (.STI, ip)
      | 0x4 => .ok (.STA, ip)
      | 0x5 => do let (v, ip1) ← nextI32 code ip; .ok (.JMP v, ip1)
      | 0x6 => .ok (.END, ip)
      | 0x7 => .ok (.RET, ip)
      | 0x8 => .ok (.DROP, ip)
      | 0x9 => .ok (.DUP, ip)
      | 0xa => .ok (.SWAP, ip)
      | 0xb => .ok (.ELEM, ip)
      | _ => .error (.InvalidOpcode byte)
    else if opcode = 0x20 then
      if subopcode ≤ 0x3 then
        match ValueRel.tryFromByte subopcode with
        | some rel => do let (v, ip1) ← nextI32 code ip; .ok (.LOAD rel v, ip1)
        | none => .error (.InvalidOpcode byte)
      else .error (.InvalidOpcode byte)
    else if opcode = 0x30 then
      if subopcode ≤ 0x3 then
        match ValueRel.tryFromByte subopcode with
        | some rel => do let (v, ip1) ← nextI32 code ip; .ok (.LOADREF rel v, ip1)
        | none => .error (.InvalidOpcode byte)
      else .error (.InvalidOpcode byte)
    else if opcode = 0x40 then
      if subopcode ≤ 0x3 then
        match ValueRel.tryFromByte subopcode with
        | some rel => do let (v, ip1) ← nextI32 code ip; .ok (.STORE rel v, ip1)
        | none => .error (.InvalidOpcode byte)
      else .error (.InvalidOpcode byte)
    else if opcode = 0x50 then
      match subopcode with
      | 0x0 => do let (v, ip1) ← nextI32 code ip; .ok (.CJMP v .ISZERO, ip1)
      | 0x1 => do let (v, ip1) ← nextI32 code ip; .ok (.CJMP v .ISNONZERO, ip1)
      | 0x2 => do
        let (a, ip1) ← nextI32 code ip
        let (l, ip2) ← nextI32 code ip1
        .ok (.BEGIN a l, ip2)
      | 0x3 => do
        let (a, ip1) ← nextI32 code ip
        let (l, ip2) ← nextI32 code ip1
        .ok (.CBEGIN a l, ip2)
      | 0x4 => do
        let (offset, ip1) ← nextI32 code ip
        let (arity, ip2) ← nextI32 code ip1
        let (captured, ip3) ← readCaptured code arity.toNat ip2
        .ok (.CLOSURE offset arity captured, ip3)
      | 0x5 => do let (v, ip1) ← nextI32 code ip; .ok (.CALLC v, ip1)
      | 0x6 => do
        let (off, ip1) ← nextI32 code ip
        let (n, ip2) ← nextI32 code ip1
        .ok (.CALL (some off) (some n) none false, ip2)
      | 0x7 => do
        let (i, ip1) ← nextI32 code ip
        let (n, ip2) ← nextI32 code ip1
        .ok (.TAG i n, ip2)
      | 0x8 => do let (v, ip1) ← nextI32 code ip; .ok (.ARRAY v, ip1)
      | 0x9 => do
        let (l, ip1) ← nextI32 code ip
        let (c, ip2) ← nextI32 code ip1
        .ok (.FAIL l c, ip2)
      | 0xa => do let (v, ip1) ← nextI32 code ip; .ok (.LINE v, ip1)
      | _ => .error (.InvalidOpcode byte)
    else if opcode = 0x60 then
      if subopcode ≤ 0x6 then
        match PattKind.tryFromByte subopcode with
        | some kind => .ok (.PATT kind, ip)
        | none => .error (.InvalidOpcode byte)
      else .error (.InvalidOpcode byte)
    else if opcode = 0x70 then
      if subopcode ≤ 0x3 then
        match Builtin.tryFromByte subopcode with
        | some name => .ok (.CALL none none (some name) true, ip)
        | none => .error (.InvalidOpcode byte)
      else if subopcode = 0x4 then do
        let (n, ip1) ← nextI32 code ip
        .ok (.CALL none (some n) (some .Barray) true, ip1)
      else .error (.InvalidOpcode byte)
    else .error (.InvalidOpcode byte)

end Lamarik

namespace Lamacore

open Lama

/-- Model of enum DecoderError in src/lamacore/src/decoder.rs. -/
inductive DecoderError where
  | ReadingMoreThenCodeSection
  | InvalidOpcode (b : Nat)
deriving DecidableEq, Repr

/-- Model of the lamacore Instruction enum (the revision the decoder in
src/lamacore/src/decoder.rs constructs: its CLOSURE variant carries only
the code offset and the arity, no captured-variable descriptions). -/
inductive Instruction where
  | NOP
  | END
  | RET
  | BINOP (op : Op)
  | CONST (value : Int)
  | STRING (index : Int)
  | BEGIN (args locals : Int)
  | CBEGIN (args locals : Int)
  | CLOSURE (offset arity : Int)
  | STORE (rel : ValueRel) (index : Int)
  | LOAD (rel : ValueRel) (index : Int)
  | LOADREF (rel : ValueRel) (index : Int)
  | CALL (offset : Option Int) (n : Option Int) (name : Option Builtin) (builtin : Bool)
  | CALLC (arity : Int)
  | FAIL (line column : Int)
  | LINE (n : Int)
  | DROP
  | DUP
  | SWAP
  | JMP (offset : Int)
  | CJMP (offset : Int) (kind : CompareJumpKind)
  | ELEM
  | STI
  | STA
  | SEXP (s_index n_members : Int)
  | TAG (index n : Int)
  | PATT (kind : PattKind)
  | ARRAY (n : Int)
  | HALT
deriving DecidableEq, Repr

/-- Model of Decoder::next for u8 (src/lamacore/src/decoder.rs). -/
def nextU8 (code : List Nat) (ip : Nat) : Except DecoderError (Nat × Nat) :=
  if ip + 1 > code.length then .error .ReadingMoreThenCodeSection
  else .ok (code.getD ip 0, ip + 1)

/-- Model of Decoder::next for i32 (src/lamacore/src/decoder.rs). -/
def nextI32 (code : List Nat) (ip : Nat) : Except DecoderError (Int × Nat) :=
  if ip + 4 > code.length then .error .ReadingMoreThenCodeSection
  else
    .ok (i32OfLe (code.getD ip 0) (code.getD (ip + 1) 0)
      (code.getD (ip + 2) 0) (code.getD (ip + 3) 0), ip + 4)

/-- Model of Decoder::decode (src/lamacore/src/decoder.rs): byte already
fetched, ip points just past it.  Note there is no 0xff HALT case, and
the CLOSURE arm reads only the offset and arity words — the captured
variable records of the on-disk format are not consumed at all. -/
def decode (code : List Nat) (byte : Nat) (ip : Nat) :
    Except DecoderError (Instruction × Nat) :=
  let opcode := byte &&& 0xF0
  let subopcode := byte &&& 0x0F
  if opcode = 0x00 then
    if subopcode = 0x0 then .ok (.NOP, ip)
    else if 0x1 ≤ subopcode ∧ subopcode ≤ 0xd then
      match Op.tryFromByte subopcode with
      | some op => .ok (.BINOP op, ip)
      | none => .error (.InvalidOpcode byte)
    else .error (.InvalidOpcode byte)
  else if opcode = 0x10 then
    match subopcode with
    | 0x0 => do let (v, ip1) ← nextI32 code ip; .ok (.CONST v, ip1)
    | 0x1 => do let (v, ip1) ← nextI32 code ip; .ok (.STRING v, ip1)
    | 0x2 => do
      let (si, ip1) ← nextI32 code ip
      let (nm, ip2) ← nextI32 code ip1
      .ok (.SEXP si nm, ip2)
    | 0x3 => .ok (.STI, ip)
    | 0x4 => .ok (.STA, ip)
    | 0x5 => do let (v, ip1) ← nextI32 code ip; .ok (.JMP v, ip1)
    | 0x6 => .ok (.END, ip)
    | 0x7 => .ok (.RET, ip)
    | 0x8 => .ok (.DROP, ip)
    | 0x9 => .ok (.DUP, ip)
    | 0xa => .ok (.SWAP, ip)
    | 0xb => .ok (.ELEM, ip)
    | _ => .error (.InvalidOpcode byte)
  else if opcode = 0x20 then
    if subopcode ≤ 0x3 then
      match ValueRel.tryFromByte subopcode with
      | some rel => do let (v, ip1) ← nextI32 code ip; .ok (.LOAD rel v, ip1)
      | none => .error (.InvalidOpcode byte)
    else .error (.InvalidOpcode byte)
  else if opcode = 0x30 then
    if subopcode ≤ 0x3 then
      match ValueRel.tryFromByte subopcode with
      | some rel => do let (v, ip1) ← nextI32 code ip; .ok (.LOADREF rel v, ip1)
      | none => .error (.InvalidOpcode byte)
    else .error (.InvalidOpcode byte)
  else if opcode = 0x40 then
    if subopcode ≤ 0x3 then
      match ValueRel.tryFromByte subopcode with
      | some rel => do let (v, ip1) ← nextI32 code ip; .ok (.STORE rel v, ip1)
      | none => .error (.InvalidOpcode byte)
    else .error (.InvalidOpcode byte)
  else if opcode = 0x50 then
    match subopcode with
    | 0x0 => do let (v, ip1) ← nextI32 code ip; .ok (.CJMP v .ISZERO, ip1)
    | 0x1 => do let (v, ip1) ← nextI32 code ip; .ok (.CJMP v .ISNONZERO, ip1)
    | 0x2 => do
      let (a, ip1) ← nextI32 code ip
      let (l, ip2) ← nextI32 code ip1
      .ok (.BEGIN a l, ip2)
    | 0x3 => do
      let (a, ip1) ← nextI32 code ip
      let (l, ip2) ← nextI32 code ip1
      .ok (.CBEGIN a l, ip2)
    | 0x4 => do
      let (offset, ip1) ← nextI32 code ip
      let (arity, ip2) ← nextI32 code ip1
      .ok (.CLOSURE offset arity, ip2)
    | 0x5 => do let (v, ip1) ← nextI32 code ip; .ok (.CALLC v, ip1)
    | 0x6 => do
      let (off, ip1) ← nextI32 code ip
      let (n, ip2) ← nextI32 code ip1
      .ok (.CALL (some off) (some n) none false, ip2)
    | 0x7 => do
      let (i, ip1) ← nextI32 code ip
      let (n, ip2) ← nextI32 code ip1
      .ok (.TAG i n, ip2)
    | 0x8 => do let (v, ip1) ← nextI32 code ip; .ok (.ARRAY v, ip1)
    | 0x9 => do
      let (l, ip1) ← nextI32 code ip
      let (c, ip2) ← nextI32 code ip1
      .ok (.FAIL l c, ip2)
    | 0xa => do let (v, ip1) ← nextI32 code ip; .ok (.LINE v, ip1)
    | _ => .error (.InvalidOpcode byte)
  else if opcode = 0x60 then
    if subopcode ≤ 0x6 then
      match PattKind.tryFromByte subopcode with
      | some kind => .ok (.PATT kind, ip)
      | none => .error (.InvalidOpcode byte)
    else .error (.InvalidOpcode byte)
  else if opcode = 0x70 then
    if subopcode ≤ 0x3 then
      match Builtin.tryFromByte subopcode with
      | some name => .ok (.CALL none none (some name) true, ip)
      | none => .error (.InvalidOpcode byte)
    else if subopcode = 0x4 then do
      let (n, ip1) ← nextI32 code ip
      .ok (.CALL none (some n) (some .Barray) true, ip1)
    else .error (.InvalidOpcode byte)
  else .error (.InvalidOpcode byte)

/-- Decoding at an offset: fetch the opcode byte at the offset and decode
the rest, exactly the next u8 plus decode sequence the verifier walker
performs after setting the decoder ip (src/lamarifyer/src/verifyer.rs). -/
def decodeAt (code : List Nat) (o : Nat) : Except DecoderError (Instruction × Nat) := do
  let (b, ip1) ← nextU8 code o
  decode code b ip1

end Lamacore

namespace Lamarifyer

open Lama
open Lamacore (Instruction DecoderError)

/-- Limit constants of src/lamarifyer/src/verifyer.rs (the release value
of the operand stack ceiling; tests lower it to 0xffff). -/
def MAX_SEXP_TAGLEN : Nat := 10

def MAX_CAPTURES : Nat := 0x7fffffff

def MAX_OPERAND_STACK_SIZE : Nat := 0x7fffffff

def MAX_SEXP_MEMBERS : Nat := 0xffff

def MAX_ARRAY_MEMBERS : Nat := 0xffff

def MAX_PARAMS : Nat := 0xffff

/-- Model of enum VerifierError in src/lamarifyer/src/verifyer.rs. -/
inductive VerifierError where
  | FileIsTooLarge (file : String) (size : Nat)
  | DecoderError (e : DecoderError)
  | InvalidJumpOffset (ip : Nat) (off : Int) (len : Nat)
  | StringIndexOutOfBounds
  | InvalidStoreIndex (rel : ValueRel) (index : Int) (n : Int)
  | InvalidLoadIndex (rel : ValueRel) (index : Int) (n : Int)
  | TooMuchMembers (n max : Nat)
  | TooManyCaptures (n : Nat)
  | SexpTagTooLong (n : Nat)
  | InvalidBeginArgs (n : Int)
  | StackUnderflow (expected : Int)
  | StackOverflow
deriving DecidableEq, Repr

/-- Model of StackEffect::stack_size_effect (src/lamarifyer/src/verifyer.rs):
net stack effect (push minus pop) of an instruction as the verifier
tabulates it; the unwrap on the Barray member count cannot fail because
the decoder always fills it in. -/
def stack_size_effect (i : Instruction) : Int :=
  match i with
  | .NOP => 0
  | .END => 0
  | .RET => 0
  | .BINOP _ => -1
  | .CONST _ => 1
  | .STRING _ => 1
  | .BEGIN args locals => 1 + 1 + 1 + 1 + 1 + 1 + args + locals
  | .CBEGIN args locals => 1 + 1 + 1 + 1 + 1 + 1 + args + locals
  | .CLOSURE _ _ => 1
  | .STORE _ _ => 0
  | .LOAD _ _ => 1
  | .LOADREF _ _ => 1
  | .CALL _ n name builtin =>
    if !builtin then 1
    else
      match name with
      | some .Barray => -(n.getD 0) + 1
      | some .Lread => 1
      | some .Llength => 0
      | some .Lwrite => 0
      | some .Lstring => 0
      | none => 1
  | .CALLC _ => -1 + 1 + 1
  | .FAIL _ _ => 0
  | .LINE _ => 0
  | .DROP => -1
  | .DUP => 1
  | .SWAP => 0
  | .JMP _ => 0
  | .CJMP _ _ => -1
  | .ELEM => -1
  | .STI => -1
  | .STA => -2
  | .SEXP _ n_members => 1 - n_members
  | .TAG _ _ => 0
  | .PATT kind =>
    match kind with
    | .IsStr => 0
    | .BothAreStr => -1
    | .IsArray => 0
    | .IsSExp => 0
    | .IsRef => 0
    | .IsVal => 0
    | .IsLambda => 0
  | .ARRAY _ => 0
  | .HALT => 0

/-- Model of StackEffect::push_effect (src/lamarifyer/src/verifyer.rs). -/
def push_effect (i : Instruction) : Int :=
  match i with
  | .NOP => 0
  | .END => 1
  | .RET => 1
  | .BINOP _ => 1
  | .CONST _ => 1
  | .STRING _ => 1
  | .BEGIN args locals => 1 + 1 + 1 + 1 + 1 + 1 + args + locals
  | .CBEGIN args locals => 1 + 1 + 1 + 1 + 1 + 1 + args + locals
  | .CLOSURE _ _ => 1
  | .STORE _ _ => 1
  | .LOAD _ _ => 1
  | .LOADREF _ _ => 2
  | .CALL _ _ name builtin =>
    if !builtin then 1
    else
      match name with
      | some .Barray => 1
      | some .Lread => 1
      | some .Llength => 1
      | some .Lwrite => 1
      | some .Lstring => 1
      | none => 1
  | .CALLC _ => 1 + 1
  | .FAIL _ _ => 0
  | .LINE _ => 0
  | .DROP => 0
  | .DUP => 2
  | .SWAP => 2
  | .JMP _ => 0
  | .CJMP _ _ => 0
  | .ELEM => 1
  | .STI => 1
  | .STA => 1
  | .SEXP _ _ => 1
  | .TAG _ _ => 1
  | .PATT _ => 1
  | .ARRAY _ => 1
  | .HALT => 0

/-- Model of StackEffect::pop_effect (src/lamarifyer/src/verifyer.rs). -/
def pop_effect (i : Instruction) : Int := stack_size_effect i - push_effect i

/-- Model of Bytefile::get_string_at_offset (src/src/disasm.rs, the
equivalent of the lamacore byte file the verifier consults): the bytes of
the NUL-terminated string starting at the byte offset, terminator
included; none when no NUL follows.  The source indexes the table with a
range expression that panics when the offset is past the end; the
verifier checks the offset against the table length before calling, and
here an offset past the end yields the empty slice and hence none. -/
def get_string_at_offset (string_table : List Nat) (offset : Nat) : Option (List Nat) :=
  let slice := string_table.drop offset
  match slice.findIdx? (fun b => b == 0) with
  | none => none
  | some first_null => some (slice.take (first_null + 1))

/-- The immutable inputs of Verifier::verify_instruction
(src/lamarifyer/src/verifyer.rs): the code section length, the string
table, the global area size, and the decoder ip at entry, which the
enclosing loop has just advanced to the end of the decoded instruction. -/
structure Ctx where
  code_section_len : Nat
  string_table : List Nat
  global_area_size : Nat
  instrEnd : Nat
deriving Repr

/-- The mutable state Verifier::verify_instruction threads: the per-offset
max-depth table (a Vec in the source, modelled as a total map; the
verifier only ever indexes it inside the code section), the abstract
stack height, the begin offset of the current function, and the decoder
ip. -/
structure VState where
  stack_depths : Nat → Int
  current_stack_depth : Int
  current_function_begin_offset : Nat
  ip : Nat

/-- Model of Verifier::verify_instruction (src/lamarifyer/src/verifyer.rs).
Result none models the Rust panic of the unwrap on a non-builtin CALL
without an offset (the decoder never produces one).  On success the
decoder ip is set to the jump target for JMP and to the instruction end
otherwise, as the trailing assignment in the source does. -/
def verify_instruction (ctx : Ctx) (instr : Instruction) (s : VState) :
    Option (Except VerifierError VState) :=
  let stack_effect := stack_size_effect instr
  let d := s.current_stack_depth + stack_effect
  if d < 0 then some (.error (.StackUnderflow (pop_effect instr * -1)))
  else if d > (MAX_OPERAND_STACK_SIZE : Int) then some (.error .StackOverflow)
  else
    let depths :=
      if d > s.stack_depths s.current_function_begin_offset then
        Function.update s.stack_depths s.current_function_begin_offset d
      else s.stack_depths
    let s1 : VState := { s with current_stack_depth := d, stack_depths := depths }
    let afterMatch : Option (Except VerifierError VState) :=
      match instr with
      | .BEGIN args _ =>
        if usizeOfInt args > MAX_PARAMS then some (.error (.InvalidBeginArgs args))
        else some (.ok { s1 with current_function_begin_offset := ctx.instrEnd })
      | .CBEGIN args _ =>
        if usizeOfInt args > MAX_PARAMS then some (.error (.InvalidBeginArgs args))
        else some (.ok { s1 with current_function_begin_offset := ctx.instrEnd })
      | .END => some (.ok { s1 with current_stack_depth := 0 })
      | .JMP offset =>
        if offset < 0 ∨ usizeOfInt offset ≥ ctx.code_section_len then
          some (.error (.InvalidJumpOffset ctx.instrEnd offset ctx.code_section_len))
        else some (.ok s1)
      | .CJMP offset _ =>
        if offset < 0 ∨ usizeOfInt offset ≥ ctx.code_section_len then
          some (.error (.InvalidJumpOffset ctx.instrEnd offset ctx.code_section_len))
        else some (.ok s1)
      | .CALL offset _ _ builtin =>
        if builtin then some (.ok s1)
        else
          match offset with
          | none => none
          | some off =>
            if off < 0 ∨ usizeOfInt off ≥ ctx.code_section_len then
              some (.error (.InvalidJumpOffset ctx.instrEnd off ctx.code_section_len))
            else some (.ok s1)
      | .STRING index =>
        if usizeOfInt index ≥ ctx.string_table.length then
          some (.error .StringIndexOutOfBounds)
        else some (.ok s1)
      | .SEXP s_index n_members =>
        let string_index := usizeOfInt s_index
        if string_index ≥ ctx.string_table.length then
          some (.error .StringIndexOutOfBounds)
        else
          let mems := usizeOfInt n_members
          if mems ≥ MAX_SEXP_MEMBERS then
            some (.error (.TooMuchMembers mems MAX_SEXP_MEMBERS))
          else
            match get_string_at_offset ctx.string_table string_index with
            | none => some (.error .StringIndexOutOfBounds)
            | some tag =>
              if tag.length > MAX_SEXP_TAGLEN then
                some (.error (.SexpTagTooLong tag.length))
              else some (.ok s1)
      | .ARRAY n =>
        let array_members := usizeOfInt n
        if array_members ≥ MAX_ARRAY_MEMBERS then
          some (.error (.TooMuchMembers array_members MAX_ARRAY_MEMBERS))
        else some (.ok s1)
      | .STORE rel index =>
        match rel with
        | .Global =>
          if usizeOfInt index ≥ ctx.global_area_size then
            some (.error (.InvalidStoreIndex .Global index (ctx.global_area_size : Int)))
          else some (.ok s1)
        | _ => some (.ok s1)
      | .LOAD rel index =>
        match rel with
        | .Global =>
          if usizeOfInt index ≥ ctx.global_area_size then
            some (.error (.InvalidLoadIndex .Global index (ctx.global_area_size : Int)))
          else some (.ok s1)
        | _ => some (.ok s1)
      | .CLOSURE offset arity =>
        if offset < 0 ∨ usizeOfInt offset ≥ ctx.code_section_len then
          some (.error (.InvalidJumpOffset ctx.instrEnd offset ctx.code_section_len))
        else if usizeOfInt arity ≥ MAX_CAPTURES then
          some (.error (.TooManyCaptures (usizeOfInt arity)))
        else some (.ok s1)
      | _ => some (.ok s1)
    match afterMatch with
    | none => none
    | some (.error e) => some (.error e)
    | some (.ok s2) =>
      match instr with
      | .JMP offset => some (.ok { s2 with ip := usizeOfInt offset })
      | _ => some (.ok { s2 with ip := ctx.instrEnd })

/-- The state threading of the forward pass Verifier::verify
(src/lamarifyer/src/verifyer.rs): the decoded instruction stream, paired
with each instruction end offset, is applied in order through
verify_instruction; decoding itself is modelled separately. -/
def verifyPass (ctx : Ctx) : List (Instruction × Nat) → VState →
    Option (Except VerifierError VState)
  | [], s => some (.ok s)
  | (instr, instrEnd) :: rest, s =>
    match verify_instruction { ctx with instrEnd := instrEnd } instr s with
    | none => none
    | some (.error e) => some (.error e)
    | some (.ok s1) => verifyPass ctx rest s1

/-- Model of Verifier::is_jump (src/lamarifyer/src/verifyer.rs). -/
def is_jump (instr : Instruction) : Bool :=
  match instr with
  | .JMP _ => true
  | .CJMP _ _ => true
  | _ => false

/-- Model of Verifier::is_terminal (src/lamarifyer/src/verifyer.rs):
RET, END, FAIL and JMP never fall through. -/
def is_terminal (instr : Instruction) : Bool :=
  match instr with
  | .RET => true
  | .END => true
  | .FAIL _ _ => true
  | .JMP _ => true
  | _ => false

/-- Model of Verifier::is_call (src/lamarifyer/src/verifyer.rs). -/
def is_call (instr : Instruction) : Bool :=
  match instr with
  | .CALL _ _ _ _ => true
  | _ => false

/-- Model of Verifier::get_call_offset (src/lamarifyer/src/verifyer.rs):
the call target, present exactly for non-builtin calls. -/
def get_call_offset (instr : Instruction) : Option Int :=
  match instr with
  | .CALL offset _ _ _ => offset
  | _ => none

/-- The offsets Verifier::get_reachables enqueues after decoding an
instruction, in enqueue order: the call target of a call carrying one,
the code offset of a CLOSURE, the target of a JMP or CJMP, and the
fall-through offset unless the instruction is terminal.  Offsets are
pushed as u32 casts of the decoded i32 words. -/
def enqueuedOffsets (instr : Instruction) (endIp : Nat) : List Nat :=
  (if is_call instr then
    match get_call_offset instr with
    | some off => [u32OfInt off]
    | none => []
  else []) ++
  (match instr with
  | .CLOSURE offset _ => [u32OfInt offset]
  | _ => []) ++
  (if is_jump instr then
    match instr with
    | .JMP offset => [u32OfInt offset]
    | .CJMP offset _ => [u32OfInt offset]
    | _ => []
  else []) ++
  (if is_terminal instr then [] else [endIp])

/-- The jump targets the walker records in the target bitmap for a
decoded instruction. -/
def jumpTargets (instr : Instruction) : List Nat :=
  if is_jump instr then
    match instr with
    | .JMP offset => [u32OfInt offset]
    | .CJMP offset _ => [u32OfInt offset]
    | _ => []
  else []

/-- The loop state of Verifier::get_reachables: the two bitmaps (of length
equal to the code section, modelled as the sets of indices that are set)
and the FIFO worklist (pop at the head, push at the end). -/
structure ReachState where
  reachables : Finset Nat
  targets : Finset Nat
  worklist : List Nat
deriving DecidableEq

/-- Possible outcomes of the walker loop: normal completion with the two
bitmaps, a decoder error (wrapped into VerifierError by the caller), or a
Rust panic from indexing a bitmap outside the code section. -/
inductive WalkOutcome where
  | ok (reachables targets : Finset Nat)
  | decodeError (e : DecoderError)
  | panicked
deriving DecidableEq

/-- Model of the loop of Verifier::get_reachables
(src/lamarifyer/src/verifyer.rs), with explicit fuel; none means the fuel
ran out before the worklist emptied (the termination theorem shows enough
fuel exists).  Each popped offset is first checked against the reachable
bitmap (a panic if outside the code section), skipped when already
marked, otherwise marked and decoded, and its successor offsets are
enqueued; jump targets are also recorded in the target bitmap, panicking
when a target lies outside the code section. -/
def walk (code : List Nat) : Nat → ReachState → Option WalkOutcome
  | 0, _ => none
  | fuel + 1, st =>
    match st.worklist with
    | [] => some (.ok st.reachables st.targets)
    | offset :: rest =>
      if offset < code.length then
        if offset ∈ st.reachables then
          walk code fuel { st with worklist := rest }
        else
          match Lamacore.decodeAt code offset with
          | .error e => some (.decodeError e)
          | .ok (instr, endIp) =>
            if (jumpTargets instr).any (fun t => decide (t ≥ code.length)) then
              some .panicked
            else
              walk code fuel {
                reachables := insert offset st.reachables
                targets := st.targets ∪ (jumpTargets instr).toFinset
                worklist := rest ++ enqueuedOffsets instr endIp }
      else some .panicked

/-- Fuel measure for the walker: every loop iteration strictly decreases
it, because a skip shortens the worklist and a marking step enqueues at
most two offsets while removing one unmarked offset for good. -/
def walkMeasure (code : List Nat) (st : ReachState) : Nat :=
  st.worklist.length + 3 * (code.length - st.reachables.card)

/-- Model of Verifier::get_reachables (src/lamarifyer/src/verifyer.rs):
both bitmaps start empty and the worklist is seeded with the code offsets
of the public symbols; the loop is run with provably sufficient fuel. -/
def get_reachables (code : List Nat) (seeds : List Nat) : Option WalkOutcome :=
  walk code (walkMeasure code ⟨∅, ∅, seeds⟩ + 1) ⟨∅, ∅, seeds⟩

end Lamarifyer


/-! Helper lemmas -/

namespace Lamarik

theorem wrap64_eq_of_mem (x : Int) (h1 : -2 ^ 63 ≤ x) (h2 : x < 2 ^ 63) :
    wrap64 x = x := by
  unfold wrap64
  omega

theorem push_eq (s : IState) (x : Object) :
    push s x = (.ok (), { s with operand_stack := s.operand_stack ++ [x] }) := by
  simp [push, gc_sync]

theorem pop_concat (l : List Object) (x : Object) (h : l ≠ []) (fp ip : Nat) :
    pop ⟨l ++ [x], fp, ip⟩ = (.ok x, ⟨l, fp, ip⟩) := by
  simp [pop, gc_sync, h]

theorem pushMany_eq (xs : List Object) (s : IState) :
    pushMany xs s = (.ok (), { s with operand_stack := s.operand_stack ++ xs }) := by
  induction xs generalizing s with
  | nil => simp [pushMany]
  | cons x xs ih => simp [pushMany, push_eq, ih]

theorem popDiscard_append (mid : List Object) (l : List Object) (h : l ≠ [])
    (fp ip : Nat) :
    popDiscard mid.length ⟨l ++ mid, fp, ip⟩ = (.ok (), ⟨l, fp, ip⟩) := by
  induction mid using List.reverseRecOn generalizing fp ip with
  | nil => simp [popDiscard]
  | append_singleton mid x ih =>
    have hne : l ++ mid ≠ [] := by
      intro hc
      exact h (List.append_eq_nil.mp hc).1
    calc popDiscard (mid ++ [x]).length ⟨l ++ (mid ++ [x]), fp, ip⟩
        = popDiscard (mid.length + 1) ⟨(l ++ mid) ++ [x], fp, ip⟩ := by
          simp [List.append_assoc]
      _ = (.ok (), ⟨l, fp, ip⟩) := by
          simp only [popDiscard, pop_concat (l ++ mid) x hne]
          exact ih fp ip

theorem popCollect_append (mid : List Object) (l : List Object) (h : l ≠ [])
    (fp ip : Nat) :
    popCollect mid.length ⟨l ++ mid, fp, ip⟩ = (.ok mid.reverse, ⟨l, fp, ip⟩) := by
  induction mid using List.reverseRecOn generalizing fp ip with
  | nil => simp [popCollect]
  | append_singleton mid x ih =>
    have hne : l ++ mid ≠ [] := by
      intro hc
      exact h (List.append_eq_nil.mp hc).1
    calc popCollect (mid ++ [x]).length ⟨l ++ (mid ++ [x]), fp, ip⟩
        = popCollect (mid.length + 1) ⟨(l ++ mid) ++ [x], fp, ip⟩ := by
          simp [List.append_assoc]
      _ = (.ok (x :: mid.reverse), ⟨l, fp, ip⟩) := by
          simp only [popCollect, pop_concat (l ++ mid) x hne]
          rw [ih fp ip]
      _ = (.ok (mid ++ [x]).reverse, ⟨l, fp, ip⟩) := by simp

end Lamarik

/-! Claim theorems -/

/-- C6: for every integer i in signed-machine-word range whose top bit is
free, unbox (box i) = i and is_unboxed (box i) = true; and is_unboxed p =
false for any heap pointer p, which is an even word. -/
theorem c6_box_roundtrip (i : Int) (h1 : -2 ^ 62 ≤ i) (h2 : i < 2 ^ 62)
    (p : Int) (hp : p % 2 = 0) :
    Lamarik.rtUnbox (Lamarik.rtBox i) = i ∧
    Lamarik.isUnboxed (Lamarik.rtBox i) = true ∧
    Lamarik.isUnboxed p = false := by
  have hbox : Lamarik.rtBox i = 2 * i + 1 := by
    unfold Lamarik.rtBox
    rw [Lamarik.wrap64_eq_of_mem (2 * i) (by omega) (by omega)]
  refine ⟨?_, ?_, ?_⟩
  · rw [hbox]
    unfold Lamarik.rtUnbox
    omega
  · rw [hbox]
    unfold Lamarik.isUnboxed
    simp only [beq_iff_eq]
    omega
  · unfold Lamarik.isUnboxed
    simp only [beq_eq_false_iff_ne, ne_eq]
    omega

theorem c6_box_roundtrip_witness :
    (-2 ^ 62 ≤ (5 : Int) ∧ (5 : Int) < 2 ^ 62 ∧ (42 : Int) % 2 = 0) ∧
    (Lamarik.rtUnbox (Lamarik.rtBox 5) = 5 ∧
      Lamarik.isUnboxed (Lamarik.rtBox 5) = true ∧
      Lamarik.isUnboxed 42 = false) :=
  ⟨by norm_num,
    c6_box_roundtrip 5 (by norm_num) (by norm_num) 42 (by norm_num)⟩

/-- C9 counterexample: the claim says the literal tag cons is special-cased
to the hash 0x19E867, but the constant baked into the code is 1697575,
which is 0x19E727; likewise nil is mapped to 115865 = 0x1C499, not
0x1C459.  At the concrete tag cons the claimed hash differs from the one
the code produces (with any runtime hash function, here constantly 0). -/
theorem c9_counterexample :
    ¬ (Lamarik.sexpTagHash (fun _ => 0) ("cons") = 0x19E867 ∧
       Lamarik.sexpTagHash (fun _ => 0) ("nil") = 0x1C459) := by
  decide

/-- C9 amended: constructing a SEXP special-cases the literal tag cons to
the hash 1697575 (0x19E727) and the literal tag nil to 115865 (0x1C499);
any other tag is hashed via the runtime tag-hash function. -/
theorem c9_tag_hash_special_cases (ltagHash : String → Int) :
    Lamarik.sexpTagHash ltagHash ("cons") = 0x19E727 ∧
    Lamarik.sexpTagHash ltagHash ("nil") = 0x1C499 ∧
    ∀ tag : String, tag ≠ "cons" → tag ≠ "nil" →
      Lamarik.sexpTagHash ltagHash tag = ltagHash tag := by
  refine ⟨?_, ?_, ?_⟩
  · simp [Lamarik.sexpTagHash, Lamarik.CONS_TAG_HASH]
  · simp [Lamarik.sexpTagHash, Lamarik.NIL_TAG_HASH]
  · intro tag h1 h2
    simp [Lamarik.sexpTagHash, h1, h2]

theorem c9_tag_hash_special_cases_witness :
    Lamarik.sexpTagHash (fun _ => 7) ("cons") = 0x19E727 ∧
    Lamarik.sexpTagHash (fun _ => 7) ("nil") = 0x1C499 ∧
    Lamarik.sexpTagHash (fun _ => 7) ("Pair") = 7 := by
  have h := c9_tag_hash_special_cases (fun _ => 7)
  exact ⟨h.1, h.2.1, h.2.2 ("Pair") (by decide) (by decide)⟩

/-- C10: popping the operand stack when it holds exactly one element
removes that element and nevertheless returns StackUnderflow, because the
stack-bounds republish performed as the last step of pop fails on the now
empty stack; consequently DROP on a one-element stack both drops the
value and reports StackUnderflow, with the mutated (empty) stack left
behind. -/
theorem c10_pop_not_atomic (v : Lamarik.Object) (fp ip : Nat) :
    Lamarik.pop ⟨[v], fp, ip⟩ =
      (.error .StackUnderflow, ⟨[], fp, ip⟩) ∧
    Lamarik.eval .DROP ⟨[v], fp, ip⟩ =
      some (.fail .StackUnderflow ⟨[], fp, ip⟩) := by
  constructor
  · rfl
  · rfl

/-- C3: evaluation of both decoders at a CLOSURE encoding whose single
capture record starts with the relation byte 0x07 (not one of Global,
Local, Arg, Capture).  The byte stream is 0x54, offset 7, arity 1, then
the record (rel 0x07, index 1).  The claim (and the doc comment on the
CLOSURE variant in src/src/bytecode.rs, which calls each capture record a
5-byte immediate) requires reading one 5-byte record and a decode-time
failure on the bad relation byte; instead the interpreter decoder reads a
single 4-byte i32 word 263 = 0x107 (the relation byte fused with part of
the index) and succeeds at ip 13, and the lamacore decoder reads no
capture records at all, succeeding already at ip 9. -/
theorem c3_closure_decode_eval :
    Lamarik.decode
        [0x54, 7, 0, 0, 0, 1, 0, 0, 0, 0x07, 1, 0, 0, 0] 0x54 1 =
      .ok (.CLOSURE 7 1 [263], 13) ∧
    Lamacore.decode
        [0x54, 7, 0, 0, 0, 1, 0, 0, 0, 0x07, 1, 0, 0, 0] 0x54 1 =
      .ok (.CLOSURE 7 1, 9) := by
  constructor
  · rfl
  · rfl

/-- C4 counterexample: with n_args = 1 the claim requires set_arg_at to
validate index < 1 and return an error for index 1; instead the source
checks index > n_args, so index 1 is accepted and the write lands at
absolute slot 6, one slot past the last argument. -/
theorem c4_counterexample :
    ¬ (1 < usizeOfInt (1 : Int)) ∧
    Lamarik.FrameMetadata.set_arg_at ⟨0, 1, 0, 0⟩
        (List.replicate 8 Lamarik.Object.new_empty) 0 1 (Lamarik.Object.new_boxed 7) =
      .ok ((List.replicate 8 Lamarik.Object.new_empty).set 6 (Lamarik.Object.new_boxed 7)) := by
  constructor
  · decide
  · rfl

/-- C4 amended: the setters validate index ≤ n_args (respectively
index ≤ n_locals) — one more than the claimed strict bound — together
with the absolute slot index being inside the slice, and return an error
without writing exactly when that weaker validation fails. -/
theorem c4_setter_validation (fm : Lamarik.FrameMetadata)
    (stack : List Lamarik.Object) (fp index : Nat) (v : Lamarik.Object) :
    (Lamarik.FrameMetadata.set_arg_at fm stack fp index v =
        .ok (stack.set (fp + 5 + index) v) ↔
      fp + 5 + index < stack.length ∧ index ≤ usizeOfInt fm.n_args) ∧
    (Lamarik.FrameMetadata.set_local_at fm stack fp index v =
        .ok (stack.set (fp + 5 + usizeOfInt fm.n_args + index) v) ↔
      fp + 5 + usizeOfInt fm.n_args + index < stack.length ∧
        index ≤ usizeOfInt fm.n_locals) ∧
    (fp + 5 + index ≥ stack.length ∨ index > usizeOfInt fm.n_args →
      Lamarik.FrameMetadata.set_arg_at fm stack fp index v =
        .error ("Index out of bounds")) ∧
    (fp + 5 + usizeOfInt fm.n_args + index ≥ stack.length ∨
        index > usizeOfInt fm.n_locals →
      Lamarik.FrameMetadata.set_local_at fm stack fp index v =
        .error ("Index out of bounds")) := by
  refine ⟨?_, ?_, ?_, ?_⟩
  · unfold Lamarik.FrameMetadata.set_arg_at
    dsimp only
    split
    · rename_i hcond
      constructor
      · intro h
        exact absurd h (by simp)
      · intro h
        omega
    · rename_i hcond
      push_neg at hcond
      simp
      omega
  · unfold Lamarik.FrameMetadata.set_local_at
    dsimp only
    split
    · rename_i hcond
      constructor
      · intro h
        exact absurd h (by simp)
      · intro h
        omega
    · rename_i hcond
      push_neg at hcond
      simp
      omega
  · intro h
    unfold Lamarik.FrameMetadata.set_arg_at
    dsimp only
    split
    · rfl
    · rename_i hcond
      push_neg at hcond
      omega
  · intro h
    unfold Lamarik.FrameMetadata.set_local_at
    dsimp only
    split
    · rfl
    · rename_i hcond
      push_neg at hcond
      omega

theorem c4_setter_validation_witness :
    Lamarik.FrameMetadata.set_arg_at ⟨2, 2, 0, 0⟩
        (List.replicate 9 Lamarik.Object.new_empty) 0 0 (Lamarik.Object.new_boxed 1) =
      .ok ((List.replicate 9 Lamarik.Object.new_empty).set 5 (Lamarik.Object.new_boxed 1)) ∧
    Lamarik.FrameMetadata.set_arg_at ⟨2, 2, 0, 0⟩
        (List.replicate 9 Lamarik.Object.new_empty) 0 5 (Lamarik.Object.new_boxed 1) =
      .error ("Index out of bounds") :=
  ⟨(c4_setter_validation ⟨2, 2, 0, 0⟩ (List.replicate 9 Lamarik.Object.new_empty)
      0 0 (Lamarik.Object.new_boxed 1)).1.mpr (by constructor <;> decide),
   (c4_setter_validation ⟨2, 2, 0, 0⟩ (List.replicate 9 Lamarik.Object.new_empty)
      0 5 (Lamarik.Object.new_boxed 1)).2.2.1 (Or.inr (by decide))⟩

/-- C7: BINOP pops r from the top, then pops l, and pushes the boxed
result of the operator applied to the unboxed operands; a zero divisor
for DIV or MOD is a Rust panic, fatal and not recoverable; the six
comparison operators and the truthiness operators AND and OR only ever
produce 0 or 1 (binopResult spells out the full table of the thirteen
operators, including that AND and OR test both operands against zero). -/
theorem c7_binop_semantics (op : Lama.Op) (lobj robj : Lamarik.Object)
    (rest : List Lamarik.Object) (fp ip : Nat) (hrest : rest ≠ []) :
    (¬ Lamarik.divPanics op lobj.unwrap robj.unwrap →
      Lamarik.eval (.BINOP op) ⟨(rest ++ [lobj]) ++ [robj], fp, ip⟩ =
        some (.ok ⟨rest ++ [Lamarik.Object.new_boxed
          (Lamarik.binopResult op lobj.unwrap robj.unwrap)], fp, ip⟩)) ∧
    ((op = .DIV ∨ op = .MOD) → robj.unwrap = 0 →
      Lamarik.eval (.BINOP op) ⟨(rest ++ [lobj]) ++ [robj], fp, ip⟩ =
        some (.panicked ⟨rest, fp, ip⟩)) ∧
    (∀ l r : Int,
      op = .LT ∨ op = .LEQ ∨ op = .GT ∨ op = .GEQ ∨ op = .EQ ∨ op = .NEQ ∨
        op = .AND ∨ op = .OR →
      Lamarik.binopResult op l r = 0 ∨ Lamarik.binopResult op l r = 1) := by
  have h1 : rest ++ [lobj] ≠ [] := by simp
  refine ⟨?_, ?_, ?_⟩
  · intro hnp
    simp only [Lamarik.eval, Lamarik.pop_concat _ _ h1, Lamarik.pop_concat _ _ hrest]
    rw [if_neg hnp]
    simp only [Lamarik.push_eq]
  · intro hop hz
    simp only [Lamarik.eval, Lamarik.pop_concat _ _ h1, Lamarik.pop_concat _ _ hrest]
    rw [if_pos ⟨hop, Or.inl hz⟩]
  · intro l r hcmp
    rcases hcmp with h | h | h | h | h | h | h | h <;> subst h <;>
      simp only [Lamarik.binopResult] <;> split <;> simp

theorem c7_binop_semantics_witness :
    Lamarik.eval (.BINOP .ADD)
        ⟨([Lamarik.Object.new_empty] ++ [Lamarik.Object.new_boxed 2]) ++
          [Lamarik.Object.new_boxed 3], 0, 0⟩ =
      some (.ok ⟨[Lamarik.Object.new_empty] ++ [Lamarik.Object.new_boxed
        (Lamarik.binopResult .ADD (Lamarik.Object.new_boxed 2).unwrap
          (Lamarik.Object.new_boxed 3).unwrap)], 0, 0⟩) :=
  (c7_binop_semantics .ADD (.new_boxed 2) (.new_boxed 3)
    [.new_empty] 0 0 (by decide)).1 (by decide)

theorem usizeOfInt_natCast (n : Nat) (h : n < 2 ^ 64) :
    usizeOfInt (n : Int) = n := by
  unfold usizeOfInt
  have h1 : ((n : Int) % (2 : Int) ^ 64) = (n : Int) := by
    apply Int.emod_eq_of_lt (by positivity)
    exact_mod_cast h
  rw [h1]
  exact Int.toNat_natCast n

namespace Lamarik

theorem popDiscard_eq_take (n : Nat) (s : IState)
    (hn : n + 1 ≤ s.operand_stack.length) :
    popDiscard n s =
      (.ok (), { s with operand_stack :=
        s.operand_stack.take (s.operand_stack.length - n) }) := by
  induction n generalizing s with
  | zero =>
    simp [popDiscard]
  | succ n ih =>
    have hne : s.operand_stack ≠ [] := by
      intro hc
      rw [hc] at hn
      simp at hn
    obtain ⟨y, hy⟩ : ∃ y, s.operand_stack.getLast? = some y := by
      cases hgl : s.operand_stack.getLast? with
      | none => exact absurd (List.getLast?_eq_none_iff.mp hgl) hne
      | some y => exact ⟨y, rfl⟩
    have hdne : (s.operand_stack.dropLast).isEmpty = false := by
      rw [List.isEmpty_eq_false_iff_exists_mem]
      have hlen : 1 ≤ s.operand_stack.dropLast.length := by
        rw [List.length_dropLast]
        omega
      exact ⟨s.operand_stack.dropLast.head (by
        intro hc
        rw [hc] at hlen
        simp at hlen), List.head_mem _⟩
    have hpop : pop s = (.ok y, { s with operand_stack := s.operand_stack.dropLast }) := by
      simp [pop, gc_sync, hy, hdne]
    simp only [popDiscard, hpop]
    rw [ih { s with operand_stack := s.operand_stack.dropLast }
      (by rw [List.length_dropLast]; omega)]
    have htake : s.operand_stack.dropLast.take (s.operand_stack.dropLast.length - n) =
        s.operand_stack.take (s.operand_stack.length - (n + 1)) := by
      rw [List.dropLast_eq_take, List.take_take, List.length_take]
      congr 1
      omega
    rw [htake]

theorem get_from_stack_concat (S0 : List Object) (hS0 : S0 ≠ [])
    (a0 a1 a2 a3 : Object) (tail : List Object) :
    FrameMetadata.get_from_stack (S0 ++ a0 :: a1 :: a2 :: a3 :: tail)
        (S0.length - 1) =
      some ⟨a1.unwrap, a0.unwrap, usizeOfInt a2.unwrap, usizeOfInt a3.unwrap⟩ := by
  have hlen : 1 ≤ S0.length := List.length_pos.mpr hS0
  have e1 : S0.length - 1 + 1 = S0.length + 0 := by omega
  have e2 : S0.length - 1 + 2 = S0.length + 1 := by omega
  have e3 : S0.length - 1 + 3 = S0.length + 2 := by omega
  have e4 : S0.length - 1 + 4 = S0.length + 3 := by omega
  unfold FrameMetadata.get_from_stack
  rw [e1, e2, e3, e4]
  rw [List.get?_append_right (by omega), List.get?_append_right (by omega),
    List.get?_append_right (by omega), List.get?_append_right (by omega)]
  simp

end Lamarik


theorem take_sub_append {α : Type} (S0 rest : List α) (k : Nat)
    (hk : k ≤ rest.length) :
    (S0 ++ rest).take ((S0 ++ rest).length - k) =
      S0 ++ rest.take (rest.length - k) := by
  rw [List.length_append]
  have h : S0.length + rest.length - k = S0.length + (rest.length - k) := by
    omega
  rw [h, List.take_append]

theorem take_chain {α : Type} (S0 rest : List α) (a b : Nat)
    (hlen : rest.length = 4 + a + b) :
    (((S0 ++ rest).take ((S0 ++ rest).length - 4)).take
        (((S0 ++ rest).take ((S0 ++ rest).length - 4)).length - a)).take
      ((((S0 ++ rest).take ((S0 ++ rest).length - 4)).take
        (((S0 ++ rest).take ((S0 ++ rest).length - 4)).length - a)).length - b) =
      S0 := by
  rw [take_sub_append S0 rest 4 (by omega)]
  rw [take_sub_append S0 (rest.take (rest.length - 4)) a
    (by simp only [List.length_take]; omega)]
  rw [take_sub_append S0 _ b
    (by simp only [List.length_take]; omega)]
  have hz : (((rest.take (rest.length - 4)).take
      ((rest.take (rest.length - 4)).length - a)).take
      ((((rest.take (rest.length - 4)).take
        ((rest.take (rest.length - 4)).length - a)).length) - b)) = [] := by
    have h0 : (((rest.take (rest.length - 4)).take
        ((rest.take (rest.length - 4)).length - a)).length) - b = 0 := by
      simp only [List.length_take]
      omega
    rw [h0, List.take_zero]
  rw [hz, List.append_nil]

namespace Lamarik

theorem Object.unwrap_new_unboxed (v : Int) : (Object.new_unboxed v).unwrap = v := rfl

theorem evalEndRet_frame (S0 args locarr : List Object) (rv : Object)
    (na nl : Int) (rfp rip ipE : Nat)
    (hS0 : S0 ≠ []) (hrfp : rfp < 2 ^ 64) (hrip : rip < 2 ^ 64)
    (hna : na.toNat = args.length) (hnl : nl.toNat = locarr.length) :
    evalEndRet ⟨(S0 ++ Object.new_unboxed na :: Object.new_unboxed nl ::
        Object.new_unboxed (rfp : Int) :: Object.new_unboxed (rip : Int) ::
        (args ++ locarr)) ++ [rv], S0.length - 1, ipE⟩ =
      .ok ⟨S0 ++ [rv], rfp, rip⟩ := by
  have hframe : S0 ++ Object.new_unboxed na :: Object.new_unboxed nl ::
      Object.new_unboxed (rfp : Int) :: Object.new_unboxed (rip : Int) ::
      (args ++ locarr) ≠ [] := by
    intro hc
    exact hS0 (List.append_eq_nil.mp hc).1
  have hs0len : 1 ≤ S0.length := List.length_pos.mpr hS0
  have hFlen : (S0 ++ Object.new_unboxed na :: Object.new_unboxed nl ::
      Object.new_unboxed (rfp : Int) :: Object.new_unboxed (rip : Int) ::
      (args ++ locarr)).length = S0.length + 4 + args.length + locarr.length := by
    simp
    omega
  unfold evalEndRet
  rw [pop_concat _ _ hframe]
  dsimp only
  rw [get_from_stack_concat S0 hS0]
  dsimp only
  simp only [Object.unwrap_new_unboxed,
    usizeOfInt_natCast rfp hrfp, usizeOfInt_natCast rip hrip]
  rw [popDiscard_eq_take 4 _ (by dsimp only; rw [hFlen]; omega)]
  dsimp only
  rw [hna]
  rw [popDiscard_eq_take args.length _ (by
    dsimp only
    simp only [List.length_take, hFlen]
    omega)]
  dsimp only
  rw [hnl]
  rw [popDiscard_eq_take locarr.length _ (by
    dsimp only
    simp only [List.length_take, hFlen]
    omega)]
  dsimp only
  rw [push_eq]
  dsimp only
  rw [take_chain S0 _ args.length locarr.length (by simp; omega)]

end Lamarik

namespace Lamarik

theorem evalBegin_frame (S0 args : List Object) (l : Nat) (retipO : Object)
    (fp0 ipB : Nat) (hS0 : S0 ≠ []) :
    evalBegin (args.length : Int) (l : Int) ⟨(S0 ++ args) ++ [retipO], fp0, ipB⟩ =
      .ok ⟨S0 ++ Object.new_unboxed (args.length : Int) ::
        Object.new_unboxed (l : Int) :: Object.new_unboxed (fp0 : Int) ::
        retipO :: (args ++ List.replicate l (Object.new_boxed 0)),
        S0.length - 1, ipB⟩ := by
  have hSA : S0 ++ args ≠ [] := by
    intro hc
    exact hS0 (List.append_eq_nil.mp hc).1
  unfold evalBegin
  simp only [pop_concat _ _ hSA, Int.toNat_natCast,
    popCollect_append args S0 hS0, pushMany_eq, List.reverse_reverse]
  rw [if_neg (by simp [hS0])]
  simp

end Lamarik

/-- C1: a successful non-builtin CALL / BEGIN / END (or RET) sequence.
From the pre-call state — stack S0 with the callee arguments pushed on
top — CALL pushes the saved ip, BEGIN consumes it and the arguments and
lays out the callee frame (the four metadata words, the re-pushed
arguments, the zero-initialised locals), and END or RET executed with the
callee's return value on top of that frame removes the frame's metadata
words, arguments and locals, restores the caller's frame pointer and ip,
and leaves the stack equal to S0 with exactly one additional value: the
callee's return value. -/
theorem c1_call_return_frame_effect (S0 args : List Lamarik.Object) (l : Nat)
    (rv : Lamarik.Object) (off n : Int) (fp0 ipc ipB ipE : Nat)
    (hS0 : S0 ≠ []) (hfp0 : fp0 < 2 ^ 64) (hipc : ipc < 2 ^ 64) :
    Lamarik.eval (.CALL (some off) (some n) none false) ⟨S0 ++ args, fp0, ipc⟩ =
      some (.ok ⟨(S0 ++ args) ++ [Lamarik.Object.new_unboxed (ipc : Int)], fp0,
        usizeOfInt off⟩) ∧
    Lamarik.eval (.BEGIN (args.length : Int) (l : Int))
        ⟨(S0 ++ args) ++ [Lamarik.Object.new_unboxed (ipc : Int)], fp0, ipB⟩ =
      some (.ok ⟨S0 ++ Lamarik.Object.new_unboxed (args.length : Int) ::
        Lamarik.Object.new_unboxed (l : Int) ::
        Lamarik.Object.new_unboxed (fp0 : Int) ::
        Lamarik.Object.new_unboxed (ipc : Int) ::
        (args ++ List.replicate l (Lamarik.Object.new_boxed 0)),
        S0.length - 1, ipB⟩) ∧
    Lamarik.eval .END
        ⟨(S0 ++ Lamarik.Object.new_unboxed (args.length : Int) ::
          Lamarik.Object.new_unboxed (l : Int) ::
          Lamarik.Object.new_unboxed (fp0 : Int) ::
          Lamarik.Object.new_unboxed (ipc : Int) ::
          (args ++ List.replicate l (Lamarik.Object.new_boxed 0))) ++ [rv],
          S0.length - 1, ipE⟩ =
      some (.ok ⟨S0 ++ [rv], fp0, ipc⟩) ∧
    Lamarik.eval .RET
        ⟨(S0 ++ Lamarik.Object.new_unboxed (args.length : Int) ::
          Lamarik.Object.new_unboxed (l : Int) ::
          Lamarik.Object.new_unboxed (fp0 : Int) ::
          Lamarik.Object.new_unboxed (ipc : Int) ::
          (args ++ List.replicate l (Lamarik.Object.new_boxed 0))) ++ [rv],
          S0.length - 1, ipE⟩ =
      some (.ok ⟨S0 ++ [rv], fp0, ipc⟩) := by
  have hend : Lamarik.evalEndRet
      ⟨(S0 ++ Lamarik.Object.new_unboxed (args.length : Int) ::
        Lamarik.Object.new_unboxed (l : Int) ::
        Lamarik.Object.new_unboxed (fp0 : Int) ::
        Lamarik.Object.new_unboxed (ipc : Int) ::
        (args ++ List.replicate l (Lamarik.Object.new_boxed 0))) ++ [rv],
        S0.length - 1, ipE⟩ = .ok ⟨S0 ++ [rv], fp0, ipc⟩ := by
    have h := Lamarik.evalEndRet_frame S0 args
      (List.replicate l (Lamarik.Object.new_boxed 0)) rv
      (args.length : Int) (l : Int) fp0 ipc ipE hS0 hfp0 hipc
      (Int.toNat_natCast args.length) (by simp)
    exact h
  refine ⟨?_, ?_, ?_, ?_⟩
  · simp only [Lamarik.eval, Lamarik.push_eq, Bool.false_eq_true, if_false]
  · show some (Lamarik.evalBegin (args.length : Int) (l : Int) _) = _
    rw [Lamarik.evalBegin_frame S0 args l (Lamarik.Object.new_unboxed (ipc : Int))
      fp0 ipB hS0]
  · show some (Lamarik.evalEndRet _) = _
    rw [hend]
  · show some (Lamarik.evalEndRet _) = _
    rw [hend]

theorem c1_call_return_frame_effect_witness :
    Lamarik.eval .END
        ⟨([Lamarik.Object.new_empty] ++ Lamarik.Object.new_unboxed 1 ::
          Lamarik.Object.new_unboxed 1 :: Lamarik.Object.new_unboxed 0 ::
          Lamarik.Object.new_unboxed 7 ::
          ([Lamarik.Object.new_boxed 10] ++
            List.replicate 1 (Lamarik.Object.new_boxed 0))) ++
          [Lamarik.Object.new_boxed 99], 0, 30⟩ =
      some (.ok ⟨[Lamarik.Object.new_empty] ++ [Lamarik.Object.new_boxed 99],
        0, 7⟩) :=
  (c1_call_return_frame_effect [Lamarik.Object.new_empty]
    [Lamarik.Object.new_boxed 10] 1 (Lamarik.Object.new_boxed 99) 5 1 0 7 20 30
    (by decide) (by norm_num) (by norm_num)).2.2.1

namespace Lamarifyer

theorem max_opstack_cast : (MAX_OPERAND_STACK_SIZE : Int) = 2147483647 := by
  norm_num [MAX_OPERAND_STACK_SIZE]

theorem verify_instruction_ok_depth (ctx : Ctx) (instr : Lamacore.Instruction)
    (s s' : VState)
    (h : verify_instruction ctx instr s = some (.ok s')) :
    (0 ≤ s'.current_stack_depth ∧
      s'.current_stack_depth ≤ (MAX_OPERAND_STACK_SIZE : Int)) ∧
    (instr = .END → s'.current_stack_depth = 0) := by
  unfold verify_instruction at h
  dsimp only at h
  by_cases h1 : s.current_stack_depth + stack_size_effect instr < 0
  · rw [if_pos h1] at h
    simp at h
  rw [if_neg h1] at h
  by_cases h2 : (MAX_OPERAND_STACK_SIZE : Int) <
      s.current_stack_depth + stack_size_effect instr
  · rw [if_pos h2] at h
    simp at h
  rw [if_neg h2] at h
  rw [max_opstack_cast] at h2
  simp only [max_opstack_cast]
  cases instr <;> dsimp only at h <;> (repeat' split at h) <;>
    (try (rename_i heq; (repeat' split at heq))) <;>
    (try simp only [Option.some.injEq, Except.ok.injEq] at heq) <;>
    (try subst heq) <;>
    (try simp only [Option.some.injEq, Except.ok.injEq] at h) <;>
    (try subst h) <;>
    simp_all

end Lamarifyer

namespace Lamarifyer

theorem verify_instruction_underflow (ctx : Ctx) (instr : Lamacore.Instruction)
    (s : VState) (h : s.current_stack_depth + stack_size_effect instr < 0) :
    verify_instruction ctx instr s =
      some (.error (.StackUnderflow (pop_effect instr * -1))) := by
  unfold verify_instruction
  dsimp only
  rw [if_pos h]

theorem verify_instruction_overflow (ctx : Ctx) (instr : Lamacore.Instruction)
    (s : VState) (h1 : ¬ s.current_stack_depth + stack_size_effect instr < 0)
    (h2 : (MAX_OPERAND_STACK_SIZE : Int) <
      s.current_stack_depth + stack_size_effect instr) :
    verify_instruction ctx instr s = some (.error .StackOverflow) := by
  unfold verify_instruction
  dsimp only
  rw [if_neg h1, if_pos h2]

theorem verifyPass_ok_depth (ctx : Ctx) (instrs : List (Lamacore.Instruction × Nat))
    (s s' : VState) (hne : instrs ≠ [])
    (h : verifyPass ctx instrs s = some (.ok s')) :
    0 ≤ s'.current_stack_depth ∧
      s'.current_stack_depth ≤ (MAX_OPERAND_STACK_SIZE : Int) := by
  induction instrs generalizing s with
  | nil => exact absurd rfl hne
  | cons p rest ih =>
    obtain ⟨instr, instrEnd⟩ := p
    unfold verifyPass at h
    cases hv : verify_instruction { ctx with instrEnd := instrEnd } instr s with
    | none => rw [hv] at h; simp at h
    | some r =>
      cases r with
      | error e => rw [hv] at h; simp at h
      | ok s1 =>
        rw [hv] at h
        dsimp only at h
        cases hrest : rest with
        | nil =>
          subst hrest
          unfold verifyPass at h
          simp only [Option.some.injEq, Except.ok.injEq] at h
          subst h
          exact (verify_instruction_ok_depth _ _ _ _ hv).1
        | cons q qs =>
          subst hrest
          exact ih s1 (by simp) h

end Lamarifyer

/-- C2: during the verifier's forward pass the abstract operand-stack
height never goes negative (a negative height is rejected with
StackUnderflow carrying the required push count) and never exceeds the
ceiling MAX_OPERAND_STACK_SIZE (rejected with StackOverflow); every state
a successful verify_instruction produces has its height within those
bounds — hence so does every state threaded through the pass — and the
END effect resets the height to zero. -/
theorem c2_verifier_height (ctx : Lamarifyer.Ctx) (instr : Lamacore.Instruction)
    (s : Lamarifyer.VState) :
    (s.current_stack_depth + Lamarifyer.stack_size_effect instr < 0 →
      Lamarifyer.verify_instruction ctx instr s =
        some (.error (.StackUnderflow (Lamarifyer.pop_effect instr * -1)))) ∧
    (0 ≤ s.current_stack_depth + Lamarifyer.stack_size_effect instr →
      (Lamarifyer.MAX_OPERAND_STACK_SIZE : Int) <
        s.current_stack_depth + Lamarifyer.stack_size_effect instr →
      Lamarifyer.verify_instruction ctx instr s = some (.error .StackOverflow)) ∧
    (∀ s', Lamarifyer.verify_instruction ctx instr s = some (.ok s') →
      0 ≤ s'.current_stack_depth ∧
        s'.current_stack_depth ≤ (Lamarifyer.MAX_OPERAND_STACK_SIZE : Int)) ∧
    (∀ s', Lamarifyer.verify_instruction ctx .END s = some (.ok s') →
      s'.current_stack_depth = 0) ∧
    (∀ (instrs : List (Lamacore.Instruction × Nat)) (s0 s' : Lamarifyer.VState),
      instrs ≠ [] → Lamarifyer.verifyPass ctx instrs s0 = some (.ok s') →
      0 ≤ s'.current_stack_depth ∧
        s'.current_stack_depth ≤ (Lamarifyer.MAX_OPERAND_STACK_SIZE : Int)) := by
  refine ⟨?_, ?_, ?_, ?_, ?_⟩
  · intro h
    exact Lamarifyer.verify_instruction_underflow ctx instr s h
  · intro h1 h2
    exact Lamarifyer.verify_instruction_overflow ctx instr s (by omega) h2
  · intro s' h
    exact (Lamarifyer.verify_instruction_ok_depth ctx instr s s' h).1
  · intro s' h
    exact (Lamarifyer.verify_instruction_ok_depth ctx .END s s' h).2 rfl
  · intro instrs s0 s' hne h
    exact Lamarifyer.verifyPass_ok_depth ctx instrs s0 s' hne h

theorem c2_verifier_height_witness :
    Lamarifyer.verify_instruction ⟨10, [], 0, 3⟩ .END ⟨fun _ => 0, 5, 0, 0⟩ =
      some (.ok ⟨Function.update (fun _ => (0 : Int)) 0 5, 0, 0, 3⟩) ∧
    (⟨Function.update (fun _ => (0 : Int)) 0 5, 0, 0, 3⟩ :
      Lamarifyer.VState).current_stack_depth = 0 :=
  have h : Lamarifyer.verify_instruction ⟨10, [], 0, 3⟩ .END ⟨fun _ => 0, 5, 0, 0⟩ =
      some (.ok ⟨Function.update (fun _ => (0 : Int)) 0 5, 0, 0, 3⟩) := by rfl
  ⟨h, (c2_verifier_height ⟨10, [], 0, 3⟩ .END ⟨fun _ => 0, 5, 0, 0⟩).2.2.2.1 _ h⟩

/-- C5 counterexample: the claim says a SEXP with member count 0xFFFF (at
most the limit) is accepted, but the verifier compares with a non-strict
inequality against MAX_SEXP_MEMBERS = 0xFFFF and rejects exactly this
member count with TooMuchMembers (string index 0 is valid here, the tag
is the one-character string at offset 0, and the abstract height 65534 +
(1 - 65535) = 0 passes both height checks). -/
theorem c5_counterexample :
    Lamarifyer.verify_instruction ⟨100, [97, 0], 0, 9⟩ (.SEXP 0 0xffff)
        ⟨fun _ => 0, 65534, 0, 0⟩ =
      some (.error (.TooMuchMembers 65535 65535)) := by
  rfl

/-- C5 amended: the verifier accepts a SEXP whose member count is
strictly below 0xFFFF and whose tag byte string (terminator included) is
at most 10 bytes, and a CLOSURE whose arity is strictly below 2^31 - 1;
it rejects member counts of 0xFFFF and above with TooMuchMembers, tag
byte strings longer than 10 with SexpTagTooLong, and arities of 2^31 - 1
and above with TooManyCaptures (all provided the height checks pass and,
for SEXP, the string index is inside the string table; for CLOSURE, the
code offset is in bounds). -/
theorem c5_verifier_limits (ctx : Lamarifyer.Ctx) (s : Lamarifyer.VState) :
    (∀ s_index n_members : Int, ∀ tag : List Nat,
      0 ≤ s.current_stack_depth +
        Lamarifyer.stack_size_effect (.SEXP s_index n_members) →
      s.current_stack_depth + Lamarifyer.stack_size_effect (.SEXP s_index n_members) ≤
        (Lamarifyer.MAX_OPERAND_STACK_SIZE : Int) →
      usizeOfInt s_index < ctx.string_table.length →
      usizeOfInt n_members < Lamarifyer.MAX_SEXP_MEMBERS →
      Lamarifyer.get_string_at_offset ctx.string_table (usizeOfInt s_index) =
        some tag →
      tag.length ≤ Lamarifyer.MAX_SEXP_TAGLEN →
      ∃ s', Lamarifyer.verify_instruction ctx (.SEXP s_index n_members) s =
        some (.ok s')) ∧
    (∀ s_index n_members : Int,
      0 ≤ s.current_stack_depth +
        Lamarifyer.stack_size_effect (.SEXP s_index n_members) →
      s.current_stack_depth + Lamarifyer.stack_size_effect (.SEXP s_index n_members) ≤
        (Lamarifyer.MAX_OPERAND_STACK_SIZE : Int) →
      usizeOfInt s_index < ctx.string_table.length →
      usizeOfInt n_members ≥ Lamarifyer.MAX_SEXP_MEMBERS →
      Lamarifyer.verify_instruction ctx (.SEXP s_index n_members) s =
        some (.error (.TooMuchMembers (usizeOfInt n_members)
          Lamarifyer.MAX_SEXP_MEMBERS))) ∧
    (∀ s_index n_members : Int, ∀ tag : List Nat,
      0 ≤ s.current_stack_depth +
        Lamarifyer.stack_size_effect (.SEXP s_index n_members) →
      s.current_stack_depth + Lamarifyer.stack_size_effect (.SEXP s_index n_members) ≤
        (Lamarifyer.MAX_OPERAND_STACK_SIZE : Int) →
      usizeOfInt s_index < ctx.string_table.length →
      usizeOfInt n_members < Lamarifyer.MAX_SEXP_MEMBERS →
      Lamarifyer.get_string_at_offset ctx.string_table (usizeOfInt s_index) =
        some tag →
      tag.length > Lamarifyer.MAX_SEXP_TAGLEN →
      Lamarifyer.verify_instruction ctx (.SEXP s_index n_members) s =
        some (.error (.SexpTagTooLong tag.length))) ∧
    (∀ offset arity : Int,
      0 ≤ s.current_stack_depth +
        Lamarifyer.stack_size_effect (.CLOSURE offset arity) →
      s.current_stack_depth + Lamarifyer.stack_size_effect (.CLOSURE offset arity) ≤
        (Lamarifyer.MAX_OPERAND_STACK_SIZE : Int) →
      ¬ (offset < 0 ∨ usizeOfInt offset ≥ ctx.code_section_len) →
      usizeOfInt arity < Lamarifyer.MAX_CAPTURES →
      ∃ s', Lamarifyer.verify_instruction ctx (.CLOSURE offset arity) s =
        some (.ok s')) ∧
    (∀ offset arity : Int,
      0 ≤ s.current_stack_depth +
        Lamarifyer.stack_size_effect (.CLOSURE offset arity) →
      s.current_stack_depth + Lamarifyer.stack_size_effect (.CLOSURE offset arity) ≤
        (Lamarifyer.MAX_OPERAND_STACK_SIZE : Int) →
      ¬ (offset < 0 ∨ usizeOfInt offset ≥ ctx.code_section_len) →
      usizeOfInt arity ≥ Lamarifyer.MAX_CAPTURES →
      Lamarifyer.verify_instruction ctx (.CLOSURE offset arity) s =
        some (.error (.TooManyCaptures (usizeOfInt arity)))) := by
  have hM := Lamarifyer.max_opstack_cast
  refine ⟨?_, ?_, ?_, ?_, ?_⟩
  · intro s_index n_members tag hd1 hd2 hsi hmem hget htag
    unfold Lamarifyer.verify_instruction
    dsimp only
    rw [if_neg (show ¬ (s.current_stack_depth +
      Lamarifyer.stack_size_effect (.SEXP s_index n_members) < 0) from by omega)]
    rw [if_neg (show ¬ ((Lamarifyer.MAX_OPERAND_STACK_SIZE : Int) <
      s.current_stack_depth +
        Lamarifyer.stack_size_effect (.SEXP s_index n_members)) from by omega)]
    rw [if_neg (show ¬ (usizeOfInt s_index ≥ ctx.string_table.length) from by omega)]
    rw [if_neg (show ¬ (usizeOfInt n_members ≥ Lamarifyer.MAX_SEXP_MEMBERS) from
      by omega)]
    simp only [hget]
    rw [if_neg (show ¬ (tag.length > Lamarifyer.MAX_SEXP_TAGLEN) from by omega)]
    exact ⟨_, rfl⟩
  · intro s_index n_members hd1 hd2 hsi hmem
    unfold Lamarifyer.verify_instruction
    dsimp only
    rw [if_neg (show ¬ (s.current_stack_depth +
      Lamarifyer.stack_size_effect (.SEXP s_index n_members) < 0) from by omega)]
    rw [if_neg (show ¬ ((Lamarifyer.MAX_OPERAND_STACK_SIZE : Int) <
      s.current_stack_depth +
        Lamarifyer.stack_size_effect (.SEXP s_index n_members)) from by omega)]
    rw [if_neg (show ¬ (usizeOfInt s_index ≥ ctx.string_table.length) from by omega)]
    rw [if_pos (show usizeOfInt n_members ≥ Lamarifyer.MAX_SEXP_MEMBERS from
      by omega)]
  · intro s_index n_members tag hd1 hd2 hsi hmem hget htag
    unfold Lamarifyer.verify_instruction
    dsimp only
    rw [if_neg (show ¬ (s.current_stack_depth +
      Lamarifyer.stack_size_effect (.SEXP s_index n_members) < 0) from by omega)]
    rw [if_neg (show ¬ ((Lamarifyer.MAX_OPERAND_STACK_SIZE : Int) <
      s.current_stack_depth +
        Lamarifyer.stack_size_effect (.SEXP s_index n_members)) from by omega)]
    rw [if_neg (show ¬ (usizeOfInt s_index ≥ ctx.string_table.length) from by omega)]
    rw [if_neg (show ¬ (usizeOfInt n_members ≥ Lamarifyer.MAX_SEXP_MEMBERS) from
      by omega)]
    simp only [hget]
    rw [if_pos (show tag.length > Lamarifyer.MAX_SEXP_TAGLEN from by omega)]
  · intro offset arity hd1 hd2 hoff har
    unfold Lamarifyer.verify_instruction
    dsimp only
    rw [if_neg (show ¬ (s.current_stack_depth +
      Lamarifyer.stack_size_effect (.CLOSURE offset arity) < 0) from by omega)]
    rw [if_neg (show ¬ ((Lamarifyer.MAX_OPERAND_STACK_SIZE : Int) <
      s.current_stack_depth +
        Lamarifyer.stack_size_effect (.CLOSURE offset arity)) from by omega)]
    rw [if_neg hoff]
    rw [if_neg (show ¬ (usizeOfInt arity ≥ Lamarifyer.MAX_CAPTURES) from by omega)]
    exact ⟨_, rfl⟩
  · intro offset arity hd1 hd2 hoff har
    unfold Lamarifyer.verify_instruction
    dsimp only
    rw [if_neg (show ¬ (s.current_stack_depth +
      Lamarifyer.stack_size_effect (.CLOSURE offset arity) < 0) from by omega)]
    rw [if_neg (show ¬ ((Lamarifyer.MAX_OPERAND_STACK_SIZE : Int) <
      s.current_stack_depth +
        Lamarifyer.stack_size_effect (.CLOSURE offset arity)) from by omega)]
    rw [if_neg hoff]
    rw [if_pos (show usizeOfInt arity ≥ Lamarifyer.MAX_CAPTURES from by omega)]

theorem c5_verifier_limits_witness :
    Lamarifyer.verify_instruction ⟨100, [97, 0], 0, 9⟩ (.SEXP 0 70000)
        ⟨fun _ => 0, 69999, 0, 0⟩ =
      some (.error (.TooMuchMembers (usizeOfInt 70000)
        Lamarifyer.MAX_SEXP_MEMBERS)) :=
  (c5_verifier_limits ⟨100, [97, 0], 0, 9⟩ ⟨fun _ => 0, 69999, 0, 0⟩).2.1 0 70000
    (by norm_num [Lamarifyer.stack_size_effect])
    (by norm_num [Lamarifyer.stack_size_effect, Lamarifyer.MAX_OPERAND_STACK_SIZE])
    (by decide)
    (by decide)

namespace Lamarifyer

theorem enqueuedOffsets_len (instr : Lamacore.Instruction) (endIp : Nat) :
    (enqueuedOffsets instr endIp).length ≤ 2 := by
  cases instr <;>
    simp [enqueuedOffsets, is_call, get_call_offset, is_jump, is_terminal] <;>
    (split <;> simp)

theorem endIp_mem_enqueuedOffsets (instr : Lamacore.Instruction) (endIp : Nat)
    (h : is_terminal instr = false) :
    endIp ∈ enqueuedOffsets instr endIp := by
  simp [enqueuedOffsets, h]

theorem walk_total (code : List Nat) :
    ∀ (fuel : Nat) (st : ReachState),
      st.reachables ⊆ Finset.range code.length →
      walkMeasure code st < fuel →
      (walk code fuel st).isSome = true := by
  intro fuel
  induction fuel with
  | zero =>
    intro st hsub h
    exact absurd h (Nat.not_lt_zero _)
  | succ n ih =>
    intro st hsub h
    cases hw : st.worklist with
    | nil =>
      unfold walk
      rw [hw]
      rfl
    | cons offset rest =>
      unfold walk
      rw [hw]
      dsimp only
      split
      · rename_i hlt
        split
        · rename_i hmem
          apply ih
          · exact hsub
          · have hm : walkMeasure code { st with worklist := rest } + 1 =
                walkMeasure code st := by
              simp [walkMeasure, hw]
              omega
            omega
        · rename_i hmem
          cases hd : Lamacore.decodeAt code offset with
          | error e => simp
          | ok p =>
            obtain ⟨instr, endIp⟩ := p
            dsimp only
            split
            · simp
            · apply ih
              · intro x hx
                rcases Finset.mem_insert.mp hx with hx | hx
                · subst hx
                  exact Finset.mem_range.mpr hlt
                · exact hsub hx
              · have hcard : st.reachables.card < code.length := by
                  have hsub2 : insert offset st.reachables ⊆
                      Finset.range code.length := by
                    intro x hx
                    rcases Finset.mem_insert.mp hx with hx | hx
                    · subst hx
                      exact Finset.mem_range.mpr hlt
                    · exact hsub hx
                  have := Finset.card_le_card hsub2
                  rw [Finset.card_insert_of_not_mem hmem] at this
                  simpa using this
                have hen := enqueuedOffsets_len instr endIp
                have hmeas : walkMeasure code st =
                    (rest.length + 1) + 3 *
                      (code.length - st.reachables.card) := by
                  simp [walkMeasure, hw]
                have hmeas2 : walkMeasure code
                    { reachables := insert offset st.reachables,
                      targets := st.targets ∪ (jumpTargets instr).toFinset,
                      worklist := rest ++ enqueuedOffsets instr endIp } =
                    (rest.length + (enqueuedOffsets instr endIp).length) + 3 *
                      (code.length - (st.reachables.card + 1)) := by
                  simp [walkMeasure, Finset.card_insert_of_not_mem hmem]
                omega
      · rfl

end Lamarifyer

namespace Lamarifyer

theorem walk_sound (code : List Nat) :
    ∀ (fuel : Nat) (st : ReachState) (R T : Finset Nat),
      walk code fuel st = some (.ok R T) →
      (∀ o ∈ st.reachables, ∃ instr endIp,
        Lamacore.decodeAt code o = .ok (instr, endIp) ∧
        ∀ t ∈ enqueuedOffsets instr endIp,
          t ∈ st.reachables ∨ t ∈ st.worklist) →
      ∀ o ∈ R, ∃ instr endIp,
        Lamacore.decodeAt code o = .ok (instr, endIp) ∧
        ∀ t ∈ enqueuedOffsets instr endIp, t ∈ R := by
  intro fuel
  induction fuel with
  | zero =>
    intro st R T h hInv
    simp [walk] at h
  | succ n ih =>
    intro st R T h hInv
    rw [walk] at h
    cases hw : st.worklist with
    | nil =>
      rw [hw] at h
      simp only [Option.some.injEq, WalkOutcome.ok.injEq] at h
      obtain ⟨hR, hT⟩ := h
      subst hR
      intro o ho
      obtain ⟨instr, endIp, hdec, hsucc⟩ := hInv o ho
      refine ⟨instr, endIp, hdec, ?_⟩
      intro t ht
      rcases hsucc t ht with hin | hin
      · exact hin
      · rw [hw] at hin
        simp at hin
    | cons offset rest =>
      rw [hw] at h
      dsimp only at h
      split at h
      · rename_i hlt
        split at h
        · rename_i hmem
          apply ih { st with worklist := rest } R T h
          intro o ho
          obtain ⟨instr, endIp, hdec, hsucc⟩ := hInv o ho
          refine ⟨instr, endIp, hdec, ?_⟩
          intro t ht
          rcases hsucc t ht with hin | hin
          · exact Or.inl hin
          · rw [hw] at hin
            rcases List.mem_cons.mp hin with hin | hin
            · subst hin
              exact Or.inl hmem
            · exact Or.inr hin
        · rename_i hmem
          cases hd : Lamacore.decodeAt code offset with
          | error e =>
            rw [hd] at h
            simp at h
          | ok p =>
            obtain ⟨instr0, endIp0⟩ := p
            rw [hd] at h
            dsimp only at h
            split at h
            · simp at h
            · apply ih ⟨insert offset st.reachables,
                st.targets ∪ (jumpTargets instr0).toFinset,
                rest ++ enqueuedOffsets instr0 endIp0⟩ R T h
              intro o ho
              rcases Finset.mem_insert.mp ho with ho | ho
              · subst ho
                refine ⟨instr0, endIp0, hd, ?_⟩
                intro t ht
                exact Or.inr (List.mem_append_right rest ht)
              · obtain ⟨instr, endIp, hdec, hsucc⟩ := hInv o ho
                refine ⟨instr, endIp, hdec, ?_⟩
                intro t ht
                rcases hsucc t ht with hin | hin
                · exact Or.inl (Finset.mem_insert_of_mem hin)
                · rw [hw] at hin
                  rcases List.mem_cons.mp hin with hin | hin
                  · subst hin
                    exact Or.inl (Finset.mem_insert_self _ _)
                  · exact Or.inr (List.mem_append_left _ hin)
      · simp at h

end Lamarifyer

/-- C8: the reachability walker terminates — run with fuel equal to its loop
measure it empties the worklist, because every offset is marked at most
once and each iteration either shortens the worklist or marks a fresh
offset — and on any successful run, every offset marked reachable decodes
successfully, all offsets the walker enqueues for it (the non-builtin
call target, the CLOSURE code offset, the JMP and CJMP targets, and the
fall-through offset for non-terminal instructions, which is exactly the
enqueuedOffsets list) are themselves marked reachable, in particular the
fall-through offset whenever the instruction is not terminal. -/
theorem c8_reachability (code seeds : List Nat) :
    (Lamarifyer.get_reachables code seeds).isSome = true ∧
    (∀ R T, Lamarifyer.get_reachables code seeds = some (.ok R T) →
      ∀ o ∈ R, ∃ instr endIp,
        Lamacore.decodeAt code o = .ok (instr, endIp) ∧
        (∀ t ∈ Lamarifyer.enqueuedOffsets instr endIp, t ∈ R) ∧
        (Lamarifyer.is_terminal instr = false → endIp ∈ R)) := by
  constructor
  · unfold Lamarifyer.get_reachables
    apply Lamarifyer.walk_total
    · intro x hx
      exact absurd hx (Finset.not_mem_empty x)
    · omega
  · intro R T h o ho
    have hs := Lamarifyer.walk_sound code _ _ R T h
      (by intro o2 ho2; exact absurd ho2 (Finset.not_mem_empty o2)) o ho
    obtain ⟨instr, endIp, hdec, hsucc⟩ := hs
    exact ⟨instr, endIp, hdec, hsucc, fun ht =>
      hsucc endIp (Lamarifyer.endIp_mem_enqueuedOffsets instr endIp ht)⟩

theorem c8_reachability_witness :
    (Lamarifyer.get_reachables [0x16] [0]).isSome = true ∧
    (∃ instr endIp, Lamacore.decodeAt [0x16] 0 = .ok (instr, endIp) ∧
      (∀ t ∈ Lamarifyer.enqueuedOffsets instr endIp, t ∈ ({0} : Finset Nat)) ∧
      (Lamarifyer.is_terminal instr = false → endIp ∈ ({0} : Finset Nat))) :=
  ⟨(c8_reachability [0x16] [0]).1,
   (c8_reachability [0x16] [0]).2 {0} ∅ (by decide) 0 (by decide)⟩
